import Mathlib

/-!
Verification of `scripts/update_market.py`.

The script fetches two market indicators (CNN Fear & Greed, FRED VIX), merges
them into a JSON snapshot on disk, and degrades gracefully on failure.  This
file shallowly embeds the script: JSON payloads become the `Json` tree below,
Python floats become `ℚ` (with `round` modelled as round-half-to-even, which is
Python's rounding mode on exact ties), HTTP fetch outcomes become
`Except String _` inputs (the `String` is the rendered exception text used in
the note), and the mutable `notes` list becomes explicit note-list results.
-/

namespace Aktie

/-- A JSON value as produced by `requests.Response.json()` / `json.loads`.
Numbers are modelled as `ℚ`; the int/float distinction of Python is dropped
(it does not affect any proved property).  Objects keep key order, as Python
dicts do; duplicate keys cannot arise from `json.loads`. -/
inductive Json where
  | null
  | bool (b : Bool)
  | num (q : ℚ)
  | str (s : String)
  | arr (elems : List Json)
  | obj (members : List (String × Json))

/-! ### Character helpers shared by the float parser, the CSV splitter,
the regex model and the JSON codec. -/

/-- `{`, written via its code point to keep brace characters out of literals. -/
def lbraceCh : Char := Char.ofNat 123

/-- `}`, written via its code point to keep brace characters out of literals. -/
def rbraceCh : Char := Char.ofNat 125

/-- Whitespace as Python's `str.strip` / `\s` see it (ASCII part; the unicode
extras never occur in the modelled data). -/
def isPySpace (c : Char) : Bool :=
  c == ' ' || c == '\t' || c == '\n' || c == '\r' || c == '\x0b' || c == '\x0c'

def isDigitCh (c : Char) : Bool := '0' ≤ c && c ≤ '9'

def digitVal (c : Char) : ℕ := c.toNat - 48

/-- Value of a most-significant-first digit string. -/
def digitsVal (l : List Char) : ℕ := l.foldl (fun a c => 10 * a + digitVal c) 0

/-- Python `str.strip()` on a character list. -/
def stripChars (l : List Char) : List Char :=
  ((l.dropWhile isPySpace).reverse.dropWhile isPySpace).reverse

/-- Python `str.strip()`. -/
def stripStr (s : String) : String := String.mk (stripChars s.data)

/-- Split a character list at every occurrence of `c` (like Python
`str.split(c)`: n separators give n+1 parts, possibly empty). -/
def splitOnCh (c : Char) : List Char → List (List Char)
  | [] => [[]]
  | x :: r =>
    let rest := splitOnCh c r
    if x = c then [] :: rest
    else
      match rest with
      | h :: t => (x :: h) :: t
      | [] => [[x]]

/-! ### `safe_float` and friends (`scripts/update_market.py` lines 31-52) -/

/-- The digit characters of a Python float literal, interpreted.  Covers the
grammar the script can meet: optional sign, digits with an optional decimal
point (at least one digit overall), optional exponent.  Python's `float` also
accepts `inf`/`nan`/underscores, which never occur in the modelled feeds and
are left out (`nan` has no `ℚ` image). -/
def parseFloatChars (l : List Char) : Option ℚ :=
  let (neg, l1) : Bool × List Char :=
    match l with
    | '-' :: r => (true, r)
    | '+' :: r => (false, r)
    | _ => (false, l)
  let intDs := l1.takeWhile isDigitCh
  let l2 := l1.dropWhile isDigitCh
  let (fracDs, l3) : List Char × List Char :=
    match l2 with
    | '.' :: r => (r.takeWhile isDigitCh, r.dropWhile isDigitCh)
    | _ => ([], l2)
  if intDs.isEmpty && fracDs.isEmpty then none
  else
    let mant : ℚ :=
      mkRat ((digitsVal intDs * 10 ^ fracDs.length + digitsVal fracDs : ℕ) : ℤ)
        (10 ^ fracDs.length)
    let signed : ℚ := if neg then -mant else mant
    match l3 with
    | [] => some signed
    | 'e' :: r | 'E' :: r =>
      let (eneg, r1) : Bool × List Char :=
        match r with
        | '-' :: r' => (true, r')
        | '+' :: r' => (false, r')
        | _ => (false, r)
      let eDs := r1.takeWhile isDigitCh
      let r2 := r1.dropWhile isDigitCh
      if eDs.isEmpty || !r2.isEmpty then none
      else some (if eneg then mkRat signed.num (signed.den * 10 ^ digitsVal eDs)
        else mkRat (signed.num * 10 ^ digitsVal eDs) signed.den)
    | _ => none

/-- `safe_float` applied to a string value: strip, refuse `""` and `"null"`
(case-insensitively), else parse as float, `None` on failure. -/
def safe_float_str (s : String) : Option ℚ :=
  let t := stripChars s.data
  if t = [] then none
  else if t.map Char.toLower = "null".data then none
  else parseFloatChars t

/-- `safe_float` (lines 31-42).  `bool` is an `int` subclass in Python, so
`float(True) = 1.0`; lists and dicts make `float(str(x))` raise, giving
`None`. -/
def safe_float : Json → Option ℚ
  | .null => none
  | .bool b => some (if b then 1 else 0)
  | .num q => some q
  | .str s => safe_float_str s
  | .arr _ => none
  | .obj _ => none

/-- Python's `round` to an integer: round half to even.  Phrased on the
numerator and denominator (`f = ⌊q⌋`, and the fractional part `q - f`
compared with `1/2` by cross-multiplication with the positive denominator)
so that it evaluates by plain integer arithmetic. -/
def roundHalfEven (q : ℚ) : ℤ :=
  let f := Int.fdiv q.num q.den
  let rem2 := 2 * (q.num - f * q.den)
  if rem2 < (q.den : ℤ) then f
  else if (q.den : ℤ) < rem2 then f + 1
  else if f % 2 = 0 then f else f + 1

/-- Python `round(x, 2)` on the exact rational model:
`roundHalfEven (q * 100) / 100`, built with the normalizing constructor. -/
def round2 (q : ℚ) : ℚ := mkRat (roundHalfEven (mkRat (q.num * 100) q.den)) 100

/-- `safe_int_0_100` (lines 45-52): parse as float, round to int, keep only
values in `[0, 100]`. -/
def safe_int_0_100 (x : Json) : Option ℕ :=
  match safe_float x with
  | none => none
  | some q =>
    let v := roundHalfEven q
    if 0 ≤ v ∧ v ≤ 100 then some v.toNat else none

/-- `label_fng` (lines 83-95).  The argument is the `Option ℕ` that
`safe_int_0_100` produces at every call site (the script never labels a value
outside `[0, 100]`); `none` mirrors the `v is None` branch. -/
def label_fng : Option ℕ → Option String
  | none => none
  | some v =>
    some (if v ≤ 24 then "Ekstrem frygt"
      else if v ≤ 44 then "Frygt"
      else if v ≤ 54 then "Neutral"
      else if v ≤ 74 then "Grådighed"
      else "Ekstrem grådighed")

/-- Python truthiness of a JSON value, for the `or`-chain in
`_find_fng_from_graph_json` step 2. -/
def pyTruthy : Json → Bool
  | .null => false
  | .bool b => b
  | .num q => q != 0
  | .str s => s != ""
  | .arr l => !l.isEmpty
  | .obj l => !l.isEmpty

/-- Python `a or b` over optional JSON values (`none` is the absent/`None`
case, which is falsy). -/
def pyOr (a b : Option Json) : Option Json :=
  match a with
  | some x => if pyTruthy x then some x else b
  | none => b

/-- `safe_int_0_100` lifted to an optional argument (`safe_float(None)` is
`None`). -/
def safe_int_0_100_opt : Option Json → Option ℕ
  | none => none
  | some j => safe_int_0_100 j

/-! ### `_walk_find_numbers` (lines 98-114)

The Python loop keeps an explicit stack, pushes a dict's values (resp. a
list's elements) in order and pops from the end, so it visits the tree in
preorder with the children of each node taken right to left.  The mutual
recursion below produces the numbers in exactly that order. -/

mutual

def walk_find_numbers : Json → List ℚ
  | .obj kvs => walkNumsObj kvs
  | .arr es => walkNumsArr es
  | j =>
    match safe_float j with
    | some q => [q]
    | none => []

def walkNumsObj : List (String × Json) → List ℚ
  | [] => []
  | (_, v) :: t => walkNumsObj t ++ walk_find_numbers v

def walkNumsArr : List Json → List ℚ
  | [] => []
  | x :: t => walkNumsArr t ++ walk_find_numbers x

end

/-! ### `_find_fng_from_graph_json` (lines 117-169) -/

/-- The `now -> value/score/index` probe applied to one dict's members
(`if key in now: v = safe_int_0_100(now.get(key)); if v is not None: return v`;
an absent key and a key whose value fails `safe_int_0_100` read the same). -/
def fng_now_probe (nkvs : List (String × Json)) : Option ℕ :=
  ((List.lookup "value" nkvs).bind safe_int_0_100)
    <|> ((List.lookup "score" nkvs).bind safe_int_0_100)
    <|> ((List.lookup "index" nkvs).bind safe_int_0_100)

/-- Step 1's check of a single dict: `cur.get("now")` must be a dict and one
of its `value`/`score`/`index` entries must yield an int in `[0, 100]`. -/
def fng_check_dict (kvs : List (String × Json)) : Option ℕ :=
  match List.lookup "now" kvs with
  | some (.obj nkvs) => fng_now_probe nkvs
  | _ => none

mutual

/-- Step 1 (lines 126-142): depth-first search over the payload, popping the
explicit stack from the end, checking every dict for the `now` pattern. -/
def fng_step1 : Json → Option ℕ
  | .obj kvs => fng_check_dict kvs <|> fngStep1Obj kvs
  | .arr es => fngStep1Arr es
  | _ => none

def fngStep1Obj : List (String × Json) → Option ℕ
  | [] => none
  | (_, v) :: t => fngStep1Obj t <|> fng_step1 v

def fngStep1Arr : List Json → Option ℕ
  | [] => none
  | x :: t => fngStep1Arr t <|> fng_step1 x

end

/-- Step 2's probe of one named top-level dict `d`: try `d["now"]` as in step 1
(without the redundant `in` test), then `d.get("score") or d.get("value") or
d.get("index")` with Python `or` semantics (falsy values are skipped). -/
def fng_named_probe (d : List (String × Json)) : Option ℕ :=
  (match List.lookup "now" d with
    | some (.obj nkvs) => fng_now_probe nkvs
    | _ => none)
  <|> safe_int_0_100_opt
        (pyOr (List.lookup "score" d) (pyOr (List.lookup "value" d) (List.lookup "index" d)))

/-- One `key in payload and isinstance(payload[key], dict)` attempt of step 2. -/
def fng_step2_key (kvs : List (String × Json)) (key : String) : Option ℕ :=
  match List.lookup key kvs with
  | some (.obj d) => fng_named_probe d
  | _ => none

/-- Step 2 (lines 144-159): the four known top-level key variants in order. -/
def fng_step2 (payload : Json) : Option ℕ :=
  match payload with
  | .obj kvs =>
    fng_step2_key kvs "fear_and_greed" <|> fng_step2_key kvs "fearAndGreed"
      <|> fng_step2_key kvs "fear_greed" <|> fng_step2_key kvs "fearGreed"
  | _ => none

/-- Step 3 (lines 161-167): collect every number in the payload, keep those in
`[0, 100]`, round each to an int, and return the first (the final
`0 <= c <= 100` re-check of the loop is kept verbatim). -/
def fng_step3 (payload : Json) : Option ℕ :=
  let nums := walk_find_numbers payload
  let candidates := (nums.filter fun x => decide (0 ≤ x) && decide (x ≤ 100)).map roundHalfEven
  (candidates.find? fun c => decide (0 ≤ c) && decide (c ≤ 100)).map Int.toNat

/-- `_find_fng_from_graph_json`: the three steps in the source's order. -/
def find_fng_from_graph_json (payload : Json) : Option ℕ :=
  fng_step1 payload <|> fng_step2 payload <|> fng_step3 payload

/-! ### The HTML regex patterns (lines 192-198)

`re.search` with `IGNORECASE | DOTALL`.  The model:
`searchSuffix` tries every start position left to right (leftmost match);
a lazy `.*?X` is the first position at or after the cursor where `X` matches
(failure there implies failure at every later backtrack position, because the
later search spaces are suffixes of the earlier one); `[^}]*?X` scans forward
but stops at a `}` that `X` does not absorb; `\s*` before `:`, `{` or a digit
is deterministic because the delimiters are not whitespace. -/

/-- Try a matcher at every suffix, leftmost first (`re.search`). -/
def searchSuffix (f : List Char → Option α) : List Char → Option α
  | [] => f []
  | c :: r => f (c :: r) <|> searchSuffix f r

/-- Try a matcher at every position until a `}` would have to be consumed
(the lazy `[^}]*?` prefix). -/
def scanNoClose (f : List Char → Option α) : List Char → Option α
  | [] => f []
  | c :: r => f (c :: r) <|> if c = rbraceCh then none else scanNoClose f r

/-- Case-insensitive literal match (the pattern is given lowercase); returns
the rest of the input. -/
def matchLitCI : List Char → List Char → Option (List Char)
  | [], s => some s
  | p :: ps, c :: s => if c.toLower = p then matchLitCI ps s else none
  | _ :: _, [] => none

def dropSpaces (l : List Char) : List Char := l.dropWhile isPySpace

/-- `\s*:\s*(\d{1,3})` — returns the captured digit characters (greedy, at
most three). -/
def afterColonGroup (l : List Char) : Option (List Char) :=
  match dropSpaces l with
  | ':' :: r =>
    let g := ((dropSpaces r).takeWhile isDigitCh).take 3
    if g.isEmpty then none else some g
  | _ => none

/-- `\s*:\s*\{` — returns the rest after the opening brace. -/
def colonBrace (l : List Char) : Option (List Char) :=
  match dropSpaces l with
  | ':' :: r =>
    match dropSpaces r with
    | c :: r2 => if c = lbraceCh then some r2 else none
    | [] => none
  | _ => none

/-- Patterns 1 and 2: `"<anchor>"\s*:\s*\{.*?"now"\s*:\s*\{.*?"value"\s*:\s*(\d{1,3})`. -/
def patNowValue (anchor : String) (s : List Char) : Option (List Char) :=
  searchSuffix (fun t =>
    (matchLitCI anchor.data t).bind fun t1 =>
    (colonBrace t1).bind fun t2 =>
    searchSuffix (fun u =>
      (matchLitCI "\"now\"".data u).bind fun u1 =>
      (colonBrace u1).bind fun u2 =>
      searchSuffix (fun w =>
        (matchLitCI "\"value\"".data w).bind afterColonGroup) u2) t2) s

/-- Pattern 3: `"now"\s*:\s*\{[^}]*?"value"\s*:\s*(\d{1,3})`. -/
def patNowBrace (s : List Char) : Option (List Char) :=
  searchSuffix (fun t =>
    (matchLitCI "\"now\"".data t).bind fun t1 =>
    (colonBrace t1).bind fun t2 =>
    scanNoClose (fun w =>
      (matchLitCI "\"value\"".data w).bind afterColonGroup) t2) s

/-- Pattern 4: `"score"\s*:\s*(\d{1,3})`. -/
def patScore (s : List Char) : Option (List Char) :=
  searchSuffix (fun t => (matchLitCI "\"score\"".data t).bind afterColonGroup) s

/-- The regex strategy of `fetch_fng_best_effort` (lines 191-209): the four
patterns in order; a match whose group fails `safe_int_0_100` falls through to
the next pattern, exactly as the loop does. -/
def fng_from_html (html : String) : Option ℕ :=
  let s := html.data
  ((patNowValue "\"fearandgreed\"" s).bind fun g => safe_int_0_100 (.str (String.mk g)))
    <|> ((patNowValue "\"fear_and_greed\"" s).bind fun g => safe_int_0_100 (.str (String.mk g)))
    <|> ((patNowBrace s).bind fun g => safe_int_0_100 (.str (String.mk g)))
    <|> ((patScore s).bind fun g => safe_int_0_100 (.str (String.mk g)))

/-! ### The fetchers and the merge (`fetch_fng_best_effort`,
`fetch_vix_from_fred`, `main`) -/

/-- The `fearGreed` reading dict (`value`, `label`, `asof`, `source`). -/
structure FngReading where
  value : Option ℚ
  label : Option String
  asof : Option String
  source : Option String
deriving DecidableEq

/-- The `vix` reading dict (`value`, `asof`, `source`; no label). -/
structure VixReading where
  value : Option ℚ
  asof : Option String
  source : Option String
deriving DecidableEq

/-- The snapshot dict the script reads, rewrites and writes
(`updatedAt`, `fearGreed`, `vix`, `notes`). -/
structure Market where
  updatedAt : Option String
  fearGreed : FngReading
  vix : VixReading
  notes : List String
deriving DecidableEq

/-- The reading built on a successful Fear & Greed extraction (lines 178-183
and 204-209). -/
def mk_fng_reading (v : ℕ) (today source : String) : FngReading :=
  ⟨some (v : ℚ), label_fng (some v), some today, some source⟩

/-- Strategy B of `fetch_fng_best_effort` (lines 189-212): fetch the HTML page
and regex-scan it.  `page` is the outcome of `fetch_text` (`error e` when the
request raised, with `e` the rendered exception).  Returns the reading and the
notes this strategy appends. -/
def fng_html_step (page : Except String String) (today : String) :
    Option FngReading × List String :=
  match page with
  | .error e => (none, ["Fear&Greed page failed: " ++ e])
  | .ok html =>
    match fng_from_html html with
    | some v => (some (mk_fng_reading v today "CNN (page)"), [])
    | none => (none, ["Fear&Greed: kunne ikke extracte fra CNN page (regex)."])

/-- `fetch_fng_best_effort` (lines 172-214).  `graph` is the outcome of
`fetch_json` on the graphdata URL; strategy A runs `_find_fng_from_graph_json`
on it, and only when A produces nothing does strategy B fetch the page.
Returns the reading and the notes appended during the call. -/
def fetch_fng_best_effort (graph : Except String Json) (page : Except String String)
    (today : String) : Option FngReading × List String :=
  match graph with
  | .error e =>
    let r := fng_html_step page today
    (r.1, ("Fear&Greed graphdata failed: " ++ e) :: r.2)
  | .ok payload =>
    match find_fng_from_graph_json payload with
    | some v => (some (mk_fng_reading v today "CNN (graphdata)"), [])
    | none =>
      let r := fng_html_step page today
      (r.1, "Fear&Greed: kunne ikke finde 0-100 i CNN graphdata." :: r.2)

/-- Python `text.splitlines()` modelled as splitting on `'\n'`.  (Python also
splits on `\r` and friends; the FRED feed is newline-separated, and every
claim below stays inside that envelope.)  The difference of one trailing empty
part is erased by the blank-line filter at the only call site. -/
def splitLinesPy (s : String) : List String := (splitOnCh '\n' s.data).map String.mk

/-- One data line of the FRED CSV: split on `,`, need at least two fields,
`safe_float` the second (`None` and short rows are skipped by the caller). -/
def vix_line_parse (ln : String) : Option (String × ℚ) :=
  match splitOnCh ',' ln.data with
  | d :: v :: _ =>
    match safe_float_str (String.mk v) with
    | some q => some (String.mk d, q)
    | none => none
  | _ => none

/-- `fetch_vix_from_fred` (lines 217-238).  `csv` is the `fetch_text` outcome.
The body strips and drops blank lines, skips the header, scans the data lines
from the end for the first parseable one, and rounds the value to two
decimals.  Returns the reading and the notes appended. -/
def fetch_vix_from_fred (csv : Except String String) : Option VixReading × List String :=
  match csv with
  | .error e => (none, ["VIX failed: " ++ e])
  | .ok text =>
    let ls := ((splitLinesPy text).map stripStr).filter fun l => l != ""
    match (ls.drop 1).reverse.findSome? vix_line_parse with
    | some dv => (some ⟨some (round2 dv.2), some dv.1, some "FRED (VIXCLS)"⟩, [])
    | none => (none, ["VIX: ingen gyldig værdi i FRED CSV."])

/-- The retention note of the Fear & Greed failure branch (lines 259-265). -/
def fng_keep_note (prev : FngReading) : String :=
  if prev.value = none then "Fear&Greed: stadig ingen værdi (beholder None)."
  else "Fear&Greed: fetch fejlede, beholdt sidste kendte værdi."

/-- The retention note of the VIX failure branch (lines 271-276). -/
def vix_keep_note (prev : VixReading) : String :=
  if prev.value = none then "VIX: stadig ingen værdi (beholder None)."
  else "VIX: fetch fejlede, beholdt sidste kendte værdi."

/-- Python `l[-n:]`. -/
def takeLast (n : ℕ) (l : List String) : List String := l.drop (l.length - n)

/-- Lines 247-283 of `main`: merge the two fetch results (reading plus
appended notes) into the loaded snapshot.  An indicator is taken only when a
reading with a non-`None` value came back, else the prior one is kept and a
retention note appended; the old notes are trimmed to the last 20 and at most
6 run notes are appended. -/
def merge_results (prior : Market) (fng : Option FngReading × List String)
    (vix : Option VixReading × List String) (nowIso : String) : Market :=
  let fngStep : FngReading × List String :=
    match fng.1 with
    | some r => if r.value.isSome then (r, []) else (prior.fearGreed, [fng_keep_note prior.fearGreed])
    | none => (prior.fearGreed, [fng_keep_note prior.fearGreed])
  let vixStep : VixReading × List String :=
    match vix.1 with
    | some r => if r.value.isSome then (r, []) else (prior.vix, [vix_keep_note prior.vix])
    | none => (prior.vix, [vix_keep_note prior.vix])
  let runNotes := fng.2 ++ fngStep.2 ++ vix.2 ++ vixStep.2
  { updatedAt := some nowIso
    fearGreed := fngStep.1
    vix := vixStep.1
    notes := takeLast 20 prior.notes ++ runNotes.take 6 }

/-- `main` (lines 241-288) from the loaded snapshot and the three network
outcomes.  `nowIso` and `today` stand for `utc_now_iso()` and the UTC date.
The structured `prior` always has the three keys, which subsumes the
`setdefault` calls; the readings' dicts are nonempty, so `or {}` never fires. -/
def main (prior : Market) (graph : Except String Json) (page : Except String String)
    (vixCsv : Except String String) (nowIso today : String) : Market :=
  merge_results prior (fetch_fng_best_effort graph page today) (fetch_vix_from_fred vixCsv) nowIso

/-! ### Spec-side definitions (for refinement comparison) -/

/-- The Fear & Greed strategy order as the spec states it: (a) the
nested-object search under known key variants, then (b) the regex scan of the
HTML page, then (c) the last-resort numeric-leaf scan; first success wins.
This follows the spec's words; the code-side order is
`fetch_fng_best_effort`. -/
def fng_strategy_order_spec (graph : Except String Json) (page : Except String String) :
    Option ℕ :=
  (match graph with
    | .ok j => fng_step1 j <|> fng_step2 j
    | .error _ => none)
  <|> (match page with
    | .ok h => fng_from_html h
    | .error _ => none)
  <|> (match graph with
    | .ok j => fng_step3 j
    | .error _ => none)

/-- The value-level composite the code actually computes: the whole graph-JSON
extraction (steps 1, 2 and 3, i.e. strategies (a) and (c)) first, then the
HTML regex scan (b). -/
def fng_code_order (graph : Except String Json) (page : Except String String) : Option ℕ :=
  (match graph with
    | .ok j => find_fng_from_graph_json j
    | .error _ => none)
  <|> (match page with
    | .ok h => fng_from_html h
    | .error _ => none)

/-- "Last row with a parseable numeric value", read off the spec's description
of the VIX extractor, directly on the list of data rows (header excluded):
scan from the end; a row counts when, after stripping, it splits on `,` into
at least two fields with a `safe_float`-parseable second field. -/
def vix_spec_last_valid (rows : List String) : Option (String × ℚ) :=
  rows.reverse.findSome? fun r => vix_line_parse (stripStr r)

/-! ### Shared concrete fixtures for counterexamples and witnesses -/

/-- A prior snapshot holding known values for both indicators. -/
def priorA : Market :=
  ⟨some "2024-01-01T00:00:00+00:00",
   ⟨some 50, some "Neutral", some "2024-01-01", some "CNN (graphdata)"⟩,
   ⟨some 20, some "2024-01-01", some "FRED (VIXCLS)"⟩,
   []⟩

/-- A run in which every fetch raises. -/
def outBothFail : Market :=
  main priorA (.error "ReadTimeout: boom") (.error "HTTPError: 403")
    (.error "ReadTimeout: slow") "2024-01-02T00:00:00+00:00" "2024-01-02"

/-- A run in which the Fear & Greed fetches raise but the VIX fetch succeeds
with a fresh value. -/
def outFngFail : Market :=
  main priorA (.error "ReadTimeout: boom") (.error "HTTPError: 403")
    (.ok "DATE,VIXCLS\n2024-01-02,21.5") "2024-01-02T00:00:00+00:00" "2024-01-02"

/-! ### C4 — the label breakpoint table -/

/-- C4: for every integer value in `[0, 100]` the label follows the fixed
breakpoint table, exact at the boundaries: `≤ 24` extreme fear ("Ekstrem
frygt"), `25..44` fear ("Frygt"), `45..54` neutral ("Neutral"), `55..74`
greed ("Grådighed"), `> 74` extreme greed ("Ekstrem grådighed"). -/
theorem C4_label_breakpoints :
    ∀ v : ℕ, v ≤ 100 →
      (v ≤ 24 → label_fng (some v) = some "Ekstrem frygt")
      ∧ (25 ≤ v → v ≤ 44 → label_fng (some v) = some "Frygt")
      ∧ (45 ≤ v → v ≤ 54 → label_fng (some v) = some "Neutral")
      ∧ (55 ≤ v → v ≤ 74 → label_fng (some v) = some "Grådighed")
      ∧ (74 < v → label_fng (some v) = some "Ekstrem grådighed") := by
  decide

/-- Witness for C4 at the boundary value 24. -/
theorem C4_witness : label_fng (some 24) = some "Ekstrem frygt" :=
  (C4_label_breakpoints 24 (by decide)).1 (by decide)

/-! ### Helper facts about the fetchers' note production -/

/-- Strategy B appends exactly one note when it produces no reading. -/
theorem fng_html_step_fail_notes (page : Except String String) (today : String)
    (h : (fng_html_step page today).1 = none) : (fng_html_step page today).2.length = 1 := by
  cases page with
  | error e => rfl
  | ok html =>
    simp only [fng_html_step] at h ⊢
    cases hh : fng_from_html html with
    | some v => rw [hh] at h; simp at h
    | none => rfl

/-- Strategy B appends at most one note. -/
theorem fng_html_step_notes_le (page : Except String String) (today : String) :
    (fng_html_step page today).2.length ≤ 1 := by
  cases page with
  | error e => simp [fng_html_step]
  | ok html =>
    simp only [fng_html_step]
    cases fng_from_html html <;> simp

/-- A failed Fear & Greed fetch appends exactly two notes (one per strategy). -/
theorem fng_fail_notes (graph : Except String Json) (page : Except String String)
    (today : String) (h : (fetch_fng_best_effort graph page today).1 = none) :
    (fetch_fng_best_effort graph page today).2.length = 2 := by
  cases graph with
  | error e =>
    simp only [fetch_fng_best_effort] at h ⊢
    rw [List.length_cons, fng_html_step_fail_notes page today h]
  | ok payload =>
    simp only [fetch_fng_best_effort] at h ⊢
    cases hf : find_fng_from_graph_json payload with
    | some v => rw [hf] at h; simp at h
    | none =>
      rw [hf] at h
      simp only at h ⊢
      rw [List.length_cons, fng_html_step_fail_notes page today h]

/-- The Fear & Greed fetch appends at most two notes. -/
theorem fng_notes_le (graph : Except String Json) (page : Except String String)
    (today : String) : (fetch_fng_best_effort graph page today).2.length ≤ 2 := by
  cases graph with
  | error e =>
    simp only [fetch_fng_best_effort, List.length_cons]
    have := fng_html_step_notes_le page today
    omega
  | ok payload =>
    simp only [fetch_fng_best_effort]
    cases find_fng_from_graph_json payload with
    | some v => simp
    | none =>
      simp only [List.length_cons]
      have := fng_html_step_notes_le page today
      omega

/-- A failed VIX fetch appends exactly one note. -/
theorem vix_fail_notes (csv : Except String String)
    (h : (fetch_vix_from_fred csv).1 = none) : (fetch_vix_from_fred csv).2.length = 1 := by
  cases csv with
  | error e => rfl
  | ok text =>
    simp only [fetch_vix_from_fred] at h ⊢
    cases hs : (((splitLinesPy text).map stripStr).filter fun l => l != "").drop 1
        |>.reverse.findSome? vix_line_parse with
    | some dv => rw [hs] at h; simp at h
    | none => rfl

/-- The VIX fetch appends at most one note. -/
theorem vix_notes_le (csv : Except String String) : (fetch_vix_from_fred csv).2.length ≤ 1 := by
  cases csv with
  | error e => simp [fetch_vix_from_fred]
  | ok text =>
    simp only [fetch_vix_from_fred]
    cases (((splitLinesPy text).map stripStr).filter fun l => l != "").drop 1
        |>.reverse.findSome? vix_line_parse with
    | some dv => simp
    | none => simp

/-- `l[-n:]` keeps `min n (length l)` elements. -/
theorem takeLast_length (n : ℕ) (l : List String) :
    (takeLast n l).length = min n l.length := by
  simp only [takeLast, List.length_drop]
  omega

/-- A member of the appended run notes at position at most 5 survives the
`take 6` cap. -/
theorem mem_take_six (x : String) (l0 pre post : List String) (h : pre.length ≤ 5) :
    x ∈ l0 ++ (pre ++ x :: post).take 6 := by
  refine List.mem_append.mpr (Or.inr ?_)
  rw [List.take_append_eq_append_take]
  refine List.mem_append.mpr (Or.inr ?_)
  obtain ⟨k, hk⟩ : ∃ k, 6 - pre.length = k + 1 := ⟨5 - pre.length, by omega⟩
  rw [hk, List.take_succ_cons]
  exact List.mem_cons_self _ _

/-- The merged snapshot's timestamp is the fresh one. -/
theorem merge_updatedAt (prior : Market) (fng : Option FngReading × List String)
    (vix : Option VixReading × List String) (ni : String) :
    (merge_results prior fng vix ni).updatedAt = some ni := rfl

/-- When the Fear & Greed fetch produced nothing, the field is kept. -/
theorem merge_fng_keep (prior : Market) (fng : Option FngReading × List String)
    (vix : Option VixReading × List String) (ni : String) (h : fng.1 = none) :
    (merge_results prior fng vix ni).fearGreed = prior.fearGreed := by
  simp [merge_results, h]

/-- When the VIX fetch produced nothing, the field is kept. -/
theorem merge_vix_keep (prior : Market) (fng : Option FngReading × List String)
    (vix : Option VixReading × List String) (ni : String) (h : vix.1 = none) :
    (merge_results prior fng vix ni).vix = prior.vix := by
  simp [merge_results, h]

/-- The merged notes: trimmed old notes, then the capped run notes, which are
the fetchers' notes interleaved with at most one retention note each. -/
theorem merge_run_shape (prior : Market) (fng : Option FngReading × List String)
    (vix : Option VixReading × List String) (ni : String) :
    ∃ s2 v2, (merge_results prior fng vix ni).notes
        = takeLast 20 prior.notes ++ (fng.2 ++ s2 ++ vix.2 ++ v2).take 6
      ∧ s2.length ≤ 1 ∧ v2.length ≤ 1 := by
  simp only [merge_results]
  refine ⟨_, _, rfl, ?_, ?_⟩
  · cases fng.1 with
    | none => simp
    | some r => cases hrv : r.value <;> simp [hrv]
  · cases vix.1 with
    | none => simp
    | some r => cases hrv : r.value <;> simp [hrv]

/-- Both-failure notes, exactly: the two Fear & Greed strategy notes, the
Fear & Greed retention note, the VIX failure note, the VIX retention note. -/
theorem merge_notes_both_fail (prior : Market) (fng : Option FngReading × List String)
    (vix : Option VixReading × List String) (ni : String)
    (h1 : fng.1 = none) (h2 : vix.1 = none) :
    (merge_results prior fng vix ni).notes = takeLast 20 prior.notes
      ++ (fng.2 ++ [fng_keep_note prior.fearGreed]
          ++ vix.2 ++ [vix_keep_note prior.vix]).take 6 := by
  simp [merge_results, h1, h2]

/-! ### C1 — retention on failure (amended) -/

/-- C1 (amended): when an indicator's fetch fails its prior reading is
retained unmodified; besides the other indicator's field (which a successful
fetch may update) only `notes` and `updatedAt` change — in particular when
both fetches fail the snapshot keeps both readings and only `notes` and
`updatedAt` differ. -/
theorem C1_retention (prior : Market) (graph : Except String Json)
    (page : Except String String) (vixCsv : Except String String) (nowIso today : String) :
    ((fetch_fng_best_effort graph page today).1 = none →
      (main prior graph page vixCsv nowIso today).fearGreed = prior.fearGreed)
    ∧ ((fetch_vix_from_fred vixCsv).1 = none →
      (main prior graph page vixCsv nowIso today).vix = prior.vix)
    ∧ ((fetch_fng_best_effort graph page today).1 = none →
       (fetch_vix_from_fred vixCsv).1 = none →
      main prior graph page vixCsv nowIso today =
        { prior with updatedAt := some nowIso
                     notes := (main prior graph page vixCsv nowIso today).notes }) := by
  refine ⟨fun h => merge_fng_keep _ _ _ _ h, fun h => merge_vix_keep _ _ _ _ h, fun h1 h2 => ?_⟩
  have e1 := merge_updatedAt prior (fetch_fng_best_effort graph page today)
    (fetch_vix_from_fred vixCsv) nowIso
  have e2 := merge_fng_keep prior (fetch_fng_best_effort graph page today)
    (fetch_vix_from_fred vixCsv) nowIso h1
  have e3 := merge_vix_keep prior (fetch_fng_best_effort graph page today)
    (fetch_vix_from_fred vixCsv) nowIso h2
  calc main prior graph page vixCsv nowIso today
      = ⟨(main prior graph page vixCsv nowIso today).updatedAt,
         (main prior graph page vixCsv nowIso today).fearGreed,
         (main prior graph page vixCsv nowIso today).vix,
         (main prior graph page vixCsv nowIso today).notes⟩ := rfl
    _ = _ := by rw [show (main prior graph page vixCsv nowIso today).updatedAt = some nowIso from e1,
           show (main prior graph page vixCsv nowIso today).fearGreed = prior.fearGreed from e2,
           show (main prior graph page vixCsv nowIso today).vix = prior.vix from e3]

/-- Witness for C1 at the all-failing fixture. -/
theorem C1_witness : (outBothFail.fearGreed = priorA.fearGreed
    ∧ outBothFail.vix = priorA.vix) :=
  ⟨(C1_retention priorA (.error "ReadTimeout: boom") (.error "HTTPError: 403")
      (.error "ReadTimeout: slow") "2024-01-02T00:00:00+00:00" "2024-01-02").1 rfl,
   (C1_retention priorA (.error "ReadTimeout: boom") (.error "HTTPError: 403")
      (.error "ReadTimeout: slow") "2024-01-02T00:00:00+00:00" "2024-01-02").2.1 rfl⟩

/-- Counterexample to C1 as stated: in a run whose Fear & Greed fetch fails
while the VIX fetch succeeds, the failed indicator is retained but the `vix`
field also changes, so more than `notes` and `updatedAt` changes. -/
theorem C1_counterexample :
    (fetch_fng_best_effort (.error "ReadTimeout: boom") (.error "HTTPError: 403")
        "2024-01-02").1 = none
    ∧ outFngFail.fearGreed = priorA.fearGreed
    ∧ outFngFail.vix ≠ priorA.vix := by
  refine ⟨rfl, rfl, fun h => ?_⟩
  have h2 : outFngFail.vix.asof = priorA.vix.asof := by rw [h]
  rw [show outFngFail.vix.asof = some "2024-01-02" from rfl,
      show priorA.vix.asof = some "2024-01-01" from rfl] at h2
  exact absurd h2 (by decide)

/-! ### C2 — both fetches fail (amended) -/

/-- C2 (amended): when both fetches fail, the written snapshot's `fearGreed`
and `vix` equal the prior snapshot's readings and exactly five notes are
appended (after the old notes are trimmed to their last 20): two from the
Fear & Greed strategies, the Fear & Greed retention note, the VIX failure
note, and the VIX retention note. -/
theorem C2_both_fail (prior : Market) (graph : Except String Json)
    (page : Except String String) (vixCsv : Except String String) (nowIso today : String)
    (hf : (fetch_fng_best_effort graph page today).1 = none)
    (hv : (fetch_vix_from_fred vixCsv).1 = none) :
    (main prior graph page vixCsv nowIso today).fearGreed = prior.fearGreed
    ∧ (main prior graph page vixCsv nowIso today).vix = prior.vix
    ∧ (main prior graph page vixCsv nowIso today).notes.length
        = min prior.notes.length 20 + 5 := by
  refine ⟨merge_fng_keep _ _ _ _ hf, merge_vix_keep _ _ _ _ hv, ?_⟩
  have hn := merge_notes_both_fail prior (fetch_fng_best_effort graph page today)
    (fetch_vix_from_fred vixCsv) nowIso hf hv
  have hflen := fng_fail_notes graph page today hf
  have hvlen := vix_fail_notes vixCsv hv
  rw [show main prior graph page vixCsv nowIso today
      = merge_results prior (fetch_fng_best_effort graph page today)
          (fetch_vix_from_fred vixCsv) nowIso from rfl, hn]
  rw [List.length_append, takeLast_length, List.length_take]
  simp only [List.length_append, List.length_cons, List.length_nil]
  omega

/-- Witness for C2 at the all-failing fixture. -/
theorem C2_witness : outBothFail.fearGreed = priorA.fearGreed
    ∧ outBothFail.vix = priorA.vix
    ∧ outBothFail.notes.length = min priorA.notes.length 20 + 5 :=
  C2_both_fail priorA (.error "ReadTimeout: boom") (.error "HTTPError: 403")
    (.error "ReadTimeout: slow") "2024-01-02T00:00:00+00:00" "2024-01-02" rfl rfl

/-- Counterexample to C2 as stated: from a prior snapshot with no notes, a run
in which both fetches fail writes five notes, not two. -/
theorem C2_counterexample :
    priorA.notes = [] ∧ outBothFail.notes.length = 5
      ∧ outBothFail.notes.length ≠ priorA.notes.length + 2 := by
  refine ⟨rfl, rfl, ?_⟩
  decide

/-! ### C5 — the notes cap -/

/-- C5: after any run from any prior snapshot the notes list never exceeds the
configured cap of 26 entries (20 retained old notes plus at most 6 run
notes); iterating runs therefore keeps it within the cap forever. -/
theorem C5_notes_bounded (prior : Market) (graph : Except String Json)
    (page : Except String String) (vixCsv : Except String String) (nowIso today : String) :
    (main prior graph page vixCsv nowIso today).notes.length ≤ 26 := by
  obtain ⟨s2, v2, hshape, _, _⟩ := merge_run_shape prior
    (fetch_fng_best_effort graph page today) (fetch_vix_from_fred vixCsv) nowIso
  rw [show main prior graph page vixCsv nowIso today
      = merge_results prior (fetch_fng_best_effort graph page today)
          (fetch_vix_from_fred vixCsv) nowIso from rfl, hshape]
  rw [List.length_append, takeLast_length, List.length_take]
  omega

/-! ### C8 — errors become notes and never escape; indicators are independent -/

/-- C8: the run is total for every combination of fetch outcomes (`main` is a
function, so no exception escapes); each indicator's resulting field is
unaffected by the other indicator's fetch outcome; a failed fetch leaves its
exception rendered as a note in the written snapshot. -/
theorem C8_error_isolation (prior : Market) (graph graph' : Except String Json)
    (page page' : Except String String) (vixCsv vixCsv' : Except String String)
    (nowIso today : String) :
    ((main prior graph page vixCsv nowIso today).vix
        = (main prior graph' page' vixCsv nowIso today).vix)
    ∧ ((main prior graph page vixCsv nowIso today).fearGreed
        = (main prior graph page vixCsv' nowIso today).fearGreed)
    ∧ (∀ e, graph = .error e →
        ("Fear&Greed graphdata failed: " ++ e) ∈ (main prior graph page vixCsv nowIso today).notes)
    ∧ (∀ e, vixCsv = .error e →
        ("VIX failed: " ++ e) ∈ (main prior graph page vixCsv nowIso today).notes) := by
  refine ⟨rfl, rfl, ?_, ?_⟩
  · intro e he
    subst he
    obtain ⟨s2, v2, hshape, hs2, hv2⟩ := merge_run_shape prior
      (fetch_fng_best_effort (.error e) page today) (fetch_vix_from_fred vixCsv) nowIso
    rw [show main prior (.error e) page vixCsv nowIso today
        = merge_results prior (fetch_fng_best_effort (.error e) page today)
            (fetch_vix_from_fred vixCsv) nowIso from rfl, hshape]
    rw [show (fetch_fng_best_effort (.error e) page today).2
        = ("Fear&Greed graphdata failed: " ++ e) :: (fng_html_step page today).2 from rfl]
    simp only [List.cons_append]
    exact mem_take_six _ _ [] _ (by simp)
  · intro e he
    subst he
    obtain ⟨s2, v2, hshape, hs2, hv2⟩ := merge_run_shape prior
      (fetch_fng_best_effort graph page today) (fetch_vix_from_fred (.error e)) nowIso
    rw [show main prior graph page (.error e) nowIso today
        = merge_results prior (fetch_fng_best_effort graph page today)
            (fetch_vix_from_fred (.error e)) nowIso from rfl, hshape]
    rw [show (fetch_vix_from_fred (.error e)).2 = [("VIX failed: " ++ e)] from rfl]
    have hfl := fng_notes_le graph page today
    rw [show (fetch_fng_best_effort graph page today).2 ++ s2 ++ ["VIX failed: " ++ e] ++ v2
        = ((fetch_fng_best_effort graph page today).2 ++ s2) ++ ("VIX failed: " ++ e) :: v2 from by
          simp [List.append_assoc]]
    exact mem_take_six _ _ _ _ (by rw [List.length_append]; omega)

/-- Witness for C8 at the all-failing fixture. -/
theorem C8_witness :
    ("Fear&Greed graphdata failed: ReadTimeout: boom" ∈ outBothFail.notes)
    ∧ ("VIX failed: ReadTimeout: slow" ∈ outBothFail.notes) :=
  ⟨(C8_error_isolation priorA (.error "ReadTimeout: boom") (.error "ReadTimeout: boom")
      (.error "HTTPError: 403") (.error "HTTPError: 403") (.error "ReadTimeout: slow")
      (.error "ReadTimeout: slow") "2024-01-02T00:00:00+00:00" "2024-01-02").2.2.1
    "ReadTimeout: boom" rfl,
   (C8_error_isolation priorA (.error "ReadTimeout: boom") (.error "ReadTimeout: boom")
      (.error "HTTPError: 403") (.error "HTTPError: 403") (.error "ReadTimeout: slow")
      (.error "ReadTimeout: slow") "2024-01-02T00:00:00+00:00" "2024-01-02").2.2.2
    "ReadTimeout: slow" rfl⟩

/-! ### C7 — the Fear & Greed strategy order -/

/-- C7 (amended): the extractor tries (a) the nested-object current-value
search and then (c) the last-resort numeric-leaf scan, both on the graph JSON
payload, and only then (b) the regex scan of the raw HTML; it returns the
first successful match and fails only when all strategies (and fetches) have
failed.  `fng_code_order` spells out that composite; the map equation says the
returned reading carries exactly the composite's value and that failure
coincides with the composite's failure. -/
theorem C7_strategy_order (graph : Except String Json) (page : Except String String)
    (today : String) :
    ((fetch_fng_best_effort graph page today).1).map (fun r => r.value)
      = (fng_code_order graph page).map (fun v => some ((v : ℕ) : ℚ)) := by
  cases graph with
  | error e =>
    simp only [fetch_fng_best_effort, fng_code_order, Option.none_orElse]
    cases page with
    | error e2 => rfl
    | ok html =>
      simp only [fng_html_step]
      cases fng_from_html html <;> rfl
  | ok payload =>
    simp only [fetch_fng_best_effort, fng_code_order]
    cases hf : find_fng_from_graph_json payload with
    | some v => rfl
    | none =>
      simp only [Option.none_orElse]
      cases page with
      | error e2 => rfl
      | ok html =>
        simp only [fng_html_step]
        cases fng_from_html html <;> rfl

/-- Counterexample to C7 as stated: on a payload whose only extractable value
comes from the numeric-leaf last resort (c), paired with a page that the regex
strategy (b) would match with a different value, the code returns the (c)
value — so (c) runs before (b), not after it as the claim's (a), (b), (c)
order requires. -/
theorem C7_counterexample :
    find_fng_from_graph_json (Json.obj [("foo", Json.num 50)]) = some 50
    ∧ fng_step1 (Json.obj [("foo", Json.num 50)]) = none
    ∧ fng_step2 (Json.obj [("foo", Json.num 50)]) = none
    ∧ fng_from_html "\"score\": 62" = some 62
    ∧ (fetch_fng_best_effort (.ok (Json.obj [("foo", Json.num 50)]))
        (.ok "\"score\": 62") "2024-01-02").1
      = some (mk_fng_reading 50 "2024-01-02" "CNN (graphdata)")
    ∧ fng_strategy_order_spec (.ok (Json.obj [("foo", Json.num 50)]))
        (.ok "\"score\": 62") = some 62
    ∧ (50 : ℕ) ≠ 62 :=
  ⟨rfl, rfl, rfl, rfl, rfl, rfl, by decide⟩

/-! ### C3 / C6 — the VIX CSV extractor -/

/-- Join lines with `'\n'` (the CSV shape the claims quantify over). -/
def joinLinesChars : List (List Char) → List Char
  | [] => []
  | [l] => l
  | l :: ls => l ++ '\n' :: joinLinesChars ls

/-- A header line and data rows, rendered as one CSV text. -/
def joinLines (ls : List String) : String := String.mk (joinLinesChars (ls.map String.data))

/-- Splitting at a character absent from the list leaves it whole. -/
theorem splitOnCh_of_not_mem (c : Char) (l : List Char) (h : c ∉ l) :
    splitOnCh c l = [l] := by
  induction l with
  | nil => rfl
  | cons x r ih =>
    simp only [List.mem_cons, not_or] at h
    simp only [splitOnCh, ih h.2]
    rw [if_neg fun hxc => h.1 hxc.symm]

/-- Splitting peels off a separator-free prefix before the first separator. -/
theorem splitOnCh_append (c : Char) (l r : List Char) (h : c ∉ l) :
    splitOnCh c (l ++ c :: r) = l :: splitOnCh c r := by
  induction l with
  | nil => simp [splitOnCh]
  | cons x t ih =>
    simp only [List.mem_cons, not_or] at h
    have ih' : splitOnCh c (t.append (c :: r)) = t :: splitOnCh c r := ih h.2
    simp only [List.cons_append, splitOnCh, ih']
    rw [if_neg fun hxc => h.1 hxc.symm]

/-- Splitting on `'\n'` inverts `joinLinesChars` on newline-free parts. -/
theorem splitOnCh_joinLines (parts : List (List Char))
    (h : ∀ p ∈ parts, ('\n' : Char) ∉ p) (hne : parts ≠ []) :
    splitOnCh '\n' (joinLinesChars parts) = parts := by
  induction parts with
  | nil => cases hne rfl
  | cons l ls ih =>
    cases ls with
    | nil => exact splitOnCh_of_not_mem _ _ (h l (by simp))
    | cons l2 ls2 =>
      rw [show joinLinesChars (l :: l2 :: ls2) = l ++ '\n' :: joinLinesChars (l2 :: ls2) from rfl,
        splitOnCh_append _ _ _ (h l (by simp)),
        ih (fun p hp => h p (by simp [hp])) (by simp)]

/-- A line that strips to the empty string parses to nothing. -/
theorem vix_line_parse_of_blank (r : String) (h : stripStr r = "") :
    vix_line_parse (stripStr r) = none := by
  rw [h]; rfl

/-- The strip-then-filter preprocessing does not change the scan: blank lines
would not have parsed anyway. -/
theorem findSome_strip_filter (p : List String) :
    ((p.map stripStr).filter fun l => l != "").findSome? vix_line_parse
      = p.findSome? fun r => vix_line_parse (stripStr r) := by
  induction p with
  | nil => rfl
  | cons r t ih =>
    rw [List.map_cons, List.filter_cons, List.findSome?_cons]
    by_cases hs : stripStr r = ""
    · rw [vix_line_parse_of_blank r hs, if_neg (by simp [hs])]
      exact ih
    · rw [if_pos (by simpa using hs), List.findSome?_cons]
      cases vix_line_parse (stripStr r) <;> simp [ih]

/-- The backwards scan of the stripped, blank-filtered lines equals the
spec-side "last row with a parseable numeric value" scan of the raw rows. -/
theorem reverse_scan (rows : List String) :
    (((rows.map stripStr).filter fun l => l != "").reverse).findSome? vix_line_parse
      = vix_spec_last_valid rows := by
  rw [← List.filter_reverse, ← List.map_reverse]
  exact findSome_strip_filter rows.reverse

/-- The stripped, filtered lines of a joined CSV whose header does not strip
to blank: the header survives in front, the rows follow. -/
theorem vix_lines_of_join (header : String) (rows : List String)
    (hh : stripStr header ≠ "")
    (hnl : ∀ r ∈ header :: rows, ('\n' : Char) ∉ r.data) :
    ((splitLinesPy (joinLines (header :: rows))).map stripStr).filter (fun l => l != "")
      = stripStr header :: ((rows.map stripStr).filter fun l => l != "") := by
  have hsplit : splitLinesPy (joinLines (header :: rows)) = header :: rows := by
    rw [splitLinesPy, joinLines]
    rw [show (String.mk (joinLinesChars ((header :: rows).map String.data))).data
        = joinLinesChars ((header :: rows).map String.data) from rfl]
    rw [splitOnCh_joinLines _ (by
        intro p hp
        rw [List.mem_map] at hp
        obtain ⟨r, hr, rfl⟩ := hp
        exact hnl r hr) (by simp)]
    rw [List.map_map]
    exact List.map_id'' (fun s => rfl) _
  rw [hsplit, List.map_cons, List.filter_cons, if_pos (by simpa using hh)]

/-- C3 (amended): for every valid CSV input — a non-blank header line followed
by newline-free `date,value` rows — with at least one row whose value field
parses as a float, the VIX extractor succeeds with the date of the last such
row and its value rounded to two decimals (the `round(last_val, 2)` of line
235), scanning from the end. -/
theorem C3_last_row (header : String) (rows : List String)
    (hh : stripStr header ≠ "")
    (hnl : ∀ r ∈ header :: rows, ('\n' : Char) ∉ r.data)
    (d : String) (v : ℚ) (hlast : vix_spec_last_valid rows = some (d, v)) :
    fetch_vix_from_fred (.ok (joinLines (header :: rows)))
      = (some ⟨some (round2 v), some d, some "FRED (VIXCLS)"⟩, []) := by
  rw [show fetch_vix_from_fred (.ok (joinLines (header :: rows)))
      = (match ((((splitLinesPy (joinLines (header :: rows))).map stripStr).filter
            (fun l => l != "")).drop 1).reverse.findSome? vix_line_parse with
        | some dv => (some ⟨some (round2 dv.2), some dv.1, some "FRED (VIXCLS)"⟩, [])
        | none => (none, ["VIX: ingen gyldig værdi i FRED CSV."]) : Option VixReading × List String)
      from rfl]
  rw [vix_lines_of_join header rows hh hnl, List.drop_one, List.tail_cons, reverse_scan rows,
    hlast]

/-- Witness for C3: a two-line CSV whose single data row parses. -/
theorem C3_witness :
    fetch_vix_from_fred (.ok (joinLines ["DATE,VIXCLS", "2024-01-01,17.5"]))
      = (some ⟨some (round2 (mkRat 35 2)), some "2024-01-01", some "FRED (VIXCLS)"⟩, []) :=
  C3_last_row "DATE,VIXCLS" ["2024-01-01,17.5"] (by decide) (by decide)
    "2024-01-01" (mkRat 35 2) rfl

/-- Counterexample to C3 as stated: the extractor does not return the last
row's value itself but that value rounded to two decimals: for the row value
`3.141` it returns `3.14`. -/
theorem C3_counterexample :
    vix_spec_last_valid ["2024-01-01,3.141"] = some ("2024-01-01", mkRat 3141 1000)
    ∧ (fetch_vix_from_fred (.ok "DATE,VIXCLS\n2024-01-01,3.141")).1.map (fun r => r.value)
        = some (some (mkRat 157 50))
    ∧ mkRat 157 50 ≠ mkRat 3141 1000 :=
  ⟨rfl, rfl, by decide⟩

/-- C6: on a CSV consisting of a single line (no data rows at all, whatever
the header says — even a blank text), the extractor produces no value and
appends the extraction-failure note; the script's "ExtractionError" outcome
is exactly this note-and-`None` result. -/
theorem C6_header_only (s : String) (h : ('\n' : Char) ∉ s.data) :
    fetch_vix_from_fred (.ok s) = (none, ["VIX: ingen gyldig værdi i FRED CSV."]) := by
  have hsplit : splitLinesPy s = [s] := by
    rw [splitLinesPy, splitOnCh_of_not_mem _ _ h]
    rfl
  rw [show fetch_vix_from_fred (.ok s)
      = (match ((((splitLinesPy s).map stripStr).filter
            (fun l => l != "")).drop 1).reverse.findSome? vix_line_parse with
        | some dv => (some ⟨some (round2 dv.2), some dv.1, some "FRED (VIXCLS)"⟩, [])
        | none => (none, ["VIX: ingen gyldig værdi i FRED CSV."]) : Option VixReading × List String)
      from rfl]
  rw [hsplit, List.map_cons, List.map_nil, List.filter_cons]
  by_cases hs : stripStr s = ""
  · rw [if_neg (by simp [hs])]
    rfl
  · rw [if_pos (by simpa using hs)]
    rfl

/-- Witness for C6 at the FRED header line. -/
theorem C6_witness :
    fetch_vix_from_fred (.ok "DATE,VIXCLS") = (none, ["VIX: ingen gyldig værdi i FRED CSV."]) :=
  C6_header_only "DATE,VIXCLS" (by decide)

/-! ### The JSON codec (lines 286-287 write `json.dumps(out, ensure_ascii=False,
indent=2)`; lines 67-80 read it back with `json.loads`)

The renderer follows `json.dumps` with `indent=2`: newline-and-indent after
every opening bracket and comma, `": "` after keys, the closing bracket on its
own line at the parent indent; strings escape `"`, `\` and control characters
(`ensure_ascii=False` passes other characters through); numbers print in
decimal (ints bare, other decimally-representable rationals with a point —
the int/float distinction of Python is already erased in `Json`).  The parser
is a recursive-descent `json.loads` on a fuel budget (the fuel exceeds the
input length, so it never runs out on real input); exponent-notation numbers,
which the writer never produces for the modelled snapshots, are left out. -/

/-- The decimal digit character of `d < 10`. -/
def digitCh : ℕ → Char
  | 0 => '0' | 1 => '1' | 2 => '2' | 3 => '3' | 4 => '4'
  | 5 => '5' | 6 => '6' | 7 => '7' | 8 => '8' | 9 => '9'
  | _ => '0'

/-- Decimal digits of `n`, most significant first (`fuel > n` suffices). -/
def natDigitsAux : ℕ → ℕ → List Char
  | 0, _ => []
  | fuel + 1, n =>
    if n < 10 then [digitCh n]
    else natDigitsAux fuel (n / 10) ++ [digitCh (n % 10)]

def natDigits (n : ℕ) : List Char := natDigitsAux (n + 1) n

/-- The least `k ≤ d` with `d ∣ 10 ^ k` (with `d` itself as fallback); for a
denominator of the form `2^a * 5^b` this is the number of decimal places. -/
def decExp (d : ℕ) : ℕ :=
  ((List.range (d + 1)).find? fun k => decide (d ∣ 10 ^ k)).getD d

/-- Decimal rendering of a nonnegative rational whose denominator divides a
power of ten: bare digits for an integer, otherwise digits with a decimal
point `decExp q.den` places from the right (zero-padded like `0.05`). -/
def renderPosNum (q : ℚ) : List Char :=
  let k := decExp q.den
  if k = 0 then natDigits q.num.toNat
  else
    let ds := natDigits (q.num.toNat * (10 ^ k / q.den))
    let pad := List.replicate (k + 1 - ds.length) '0' ++ ds
    pad.take (pad.length - k) ++ '.' :: pad.drop (pad.length - k)

def renderNumChars (q : ℚ) : List Char :=
  if q < 0 then '-' :: renderPosNum (-q) else renderPosNum q

/-- The hexadecimal digit character of `n < 16` (lowercase, as `json.dumps`). -/
def hexDigitCh : ℕ → Char
  | 10 => 'a' | 11 => 'b' | 12 => 'c' | 13 => 'd' | 14 => 'e' | 15 => 'f'
  | n => digitCh n

/-- One character as `json.dumps` emits it inside a string
(`ensure_ascii=False`). -/
def escapeChar (c : Char) : List Char :=
  if c = '"' then ['\\', '"']
  else if c = '\\' then ['\\', '\\']
  else if c = '\n' then ['\\', 'n']
  else if c = '\r' then ['\\', 'r']
  else if c = '\t' then ['\\', 't']
  else if c.toNat = 8 then ['\\', 'b']
  else if c.toNat = 12 then ['\\', 'f']
  else if c.toNat < 32 then
    ['\\', 'u', '0', '0', hexDigitCh (c.toNat / 16), hexDigitCh (c.toNat % 16)]
  else [c]

def escStr : List Char → List Char
  | [] => []
  | c :: t => escapeChar c ++ escStr t

def renderStrChars (s : String) : List Char := '"' :: (escStr s.data ++ ['"'])

def indentChars (lvl : ℕ) : List Char := List.replicate (2 * lvl) ' '

mutual

def renderJson : ℕ → Json → List Char
  | _, .null => ['n', 'u', 'l', 'l']
  | _, .bool true => ['t', 'r', 'u', 'e']
  | _, .bool false => ['f', 'a', 'l', 's', 'e']
  | _, .num q => renderNumChars q
  | _, .str s => renderStrChars s
  | lvl, .arr l =>
    if l.isEmpty then ['[', ']']
    else '[' :: (renderItems (lvl + 1) l ++ '\n' :: (indentChars lvl ++ [']']))
  | lvl, .obj kvs =>
    if kvs.isEmpty then [lbraceCh, rbraceCh]
    else lbraceCh :: (renderMembers (lvl + 1) kvs ++ '\n' :: (indentChars lvl ++ [rbraceCh]))

def renderItems : ℕ → List Json → List Char
  | _, [] => []
  | lvl, x :: t =>
    ('\n' :: (indentChars lvl ++ renderJson lvl x))
      ++ ((if t.isEmpty then [] else [',']) ++ renderItems lvl t)

def renderMembers : ℕ → List (String × Json) → List Char
  | _, [] => []
  | lvl, kv :: t =>
    ('\n' :: (indentChars lvl ++ (renderStrChars kv.1 ++ ':' :: ' ' :: renderJson lvl kv.2)))
      ++ ((if t.isEmpty then [] else [',']) ++ renderMembers lvl t)

end

/-- Whitespace as the JSON grammar (and `json.loads`) sees it. -/
def isWsJ (c : Char) : Bool := c == ' ' || c == '\t' || c == '\n' || c == '\r'

def skipWsJ (l : List Char) : List Char := l.dropWhile isWsJ

def hexValCh (c : Char) : Option ℕ :=
  if isDigitCh c then some (digitVal c)
  else if 'a' ≤ c ∧ c ≤ 'f' then some (c.toNat - 87)
  else if 'A' ≤ c ∧ c ≤ 'F' then some (c.toNat - 55)
  else none

def unescCh (c : Char) : Option Char :=
  if c = '"' then some '"'
  else if c = '\\' then some '\\'
  else if c = '/' then some '/'
  else if c = 'n' then some '\n'
  else if c = 'r' then some '\r'
  else if c = 't' then some '\t'
  else if c = 'b' then some (Char.ofNat 8)
  else if c = 'f' then some (Char.ofNat 12)
  else none

/-- String body parser: everything after the opening quote, undoing escapes,
up to the closing quote. -/
def parseStrBody : List Char → Option (List Char × List Char)
  | [] => none
  | c :: r =>
    if c = '"' then some ([], r)
    else if c = '\\' then
      match r with
      | 'u' :: a :: b :: c2 :: d :: r2 =>
        match hexValCh a, hexValCh b, hexValCh c2, hexValCh d with
        | some va, some vb, some vc, some vd =>
          (parseStrBody r2).map fun pr =>
            (Char.ofNat (((va * 16 + vb) * 16 + vc) * 16 + vd) :: pr.1, pr.2)
        | _, _, _, _ => none
      | e :: r2 =>
        match unescCh e with
        | some ch => (parseStrBody r2).map fun pr => (ch :: pr.1, pr.2)
        | none => none
      | [] => none
    else (parseStrBody r).map fun pr => (c :: pr.1, pr.2)

def parsePosNumChars (s : List Char) : Option (ℚ × List Char) :=
  let ds := s.takeWhile isDigitCh
  let r1 := s.dropWhile isDigitCh
  if ds.isEmpty then none
  else if r1.head? = some '.' then
    let r2 := r1.tail
    let fs := r2.takeWhile isDigitCh
    let r3 := r2.dropWhile isDigitCh
    if fs.isEmpty then none
    else some (mkRat ((digitsVal ds * 10 ^ fs.length + digitsVal fs : ℕ) : ℤ)
      (10 ^ fs.length), r3)
  else some (((digitsVal ds : ℕ) : ℚ), r1)

def parseNumChars (s : List Char) : Option (ℚ × List Char) :=
  match s with
  | c :: r =>
    if c = '-' then (parsePosNumChars r).map fun qr => (-qr.1, qr.2)
    else parsePosNumChars (c :: r)
  | [] => none

mutual

def parseValue : ℕ → List Char → Option (Json × List Char)
  | 0, _ => none
  | fuel + 1, s =>
    match skipWsJ s with
    | [] => none
    | c :: r =>
      if c = lbraceCh then
        match skipWsJ r with
        | [] => none
        | c2 :: r2 =>
          if c2 = rbraceCh then some (.obj [], r2)
          else (parseMembers fuel (c2 :: r2)).map fun pr => (Json.obj pr.1, pr.2)
      else if c = '[' then
        match skipWsJ r with
        | [] => none
        | c2 :: r2 =>
          if c2 = ']' then some (.arr [], r2)
          else (parseItems fuel (c2 :: r2)).map fun pr => (Json.arr pr.1, pr.2)
      else if c = '"' then
        (parseStrBody r).map fun pr => (Json.str (String.mk pr.1), pr.2)
      else if c = 'n' then
        match r with
        | 'u' :: 'l' :: 'l' :: r2 => some (.null, r2)
        | _ => none
      else if c = 't' then
        match r with
        | 'r' :: 'u' :: 'e' :: r2 => some (.bool true, r2)
        | _ => none
      else if c = 'f' then
        match r with
        | 'a' :: 'l' :: 's' :: 'e' :: r2 => some (.bool false, r2)
        | _ => none
      else if c = '-' || isDigitCh c then
        (parseNumChars (c :: r)).map fun pr => (Json.num pr.1, pr.2)
      else none

def parseMembers : ℕ → List Char → Option (List (String × Json) × List Char)
  | 0, _ => none
  | fuel + 1, s =>
    match s with
    | [] => none
    | c :: r =>
      if c = '"' then
        (parseStrBody r).bind fun kr =>
          match skipWsJ kr.2 with
          | ':' :: r2 =>
            (parseValue fuel r2).bind fun vr =>
              match skipWsJ vr.2 with
              | c3 :: r3 =>
                if c3 = ',' then
                  (parseMembers fuel (skipWsJ r3)).map fun mr =>
                    ((String.mk kr.1, vr.1) :: mr.1, mr.2)
                else if c3 = rbraceCh then some ([(String.mk kr.1, vr.1)], r3)
                else none
              | [] => none
          | _ => none
      else none

def parseItems : ℕ → List Char → Option (List Json × List Char)
  | 0, _ => none
  | fuel + 1, s =>
    (parseValue fuel s).bind fun vr =>
      match skipWsJ vr.2 with
      | c :: r =>
        if c = ',' then
          (parseItems fuel (skipWsJ r)).map fun ir => (vr.1 :: ir.1, ir.2)
        else if c = ']' then some ([vr.1], r)
        else none
      | [] => none

end

/-- `json.dumps(out, ensure_ascii=False, indent=2)` (line 287). -/
def jsonDumps (j : Json) : String := String.mk (renderJson 0 j)

/-- `json.loads` (line 70): parse one value, allow only trailing whitespace. -/
def jsonLoads (s : String) : Option Json :=
  match parseValue (s.data.length + 1) s.data with
  | some jr => if skipWsJ jr.2 = [] then some jr.1 else none
  | none => none

/-! ### Well-formedness of written content

The written snapshots stay inside this envelope: every string is free of
control characters (so only `"` and `\` are escaped), and every number's
denominator divides a power of ten (Python floats are dyadic, so every value
a real run writes does; `d ∣ 10 ^ d` is the decidable form). -/

def wfStr (s : String) : Bool := s.data.all fun c => 32 ≤ c.toNat

def wfNum (q : ℚ) : Bool := decide (q.den ∣ 10 ^ q.den)

mutual

def wfJson : Json → Bool
  | .null => true
  | .bool _ => true
  | .num q => wfNum q
  | .str s => wfStr s
  | .arr l => wfItems l
  | .obj kvs => wfMembers kvs

def wfMembers : List (String × Json) → Bool
  | [] => true
  | kv :: t => wfStr kv.1 && wfJson kv.2 && wfMembers t

def wfItems : List Json → Bool
  | [] => true
  | x :: t => wfJson x && wfItems t

end

/-! ### The snapshot as JSON, and `load_existing_market` -/

def opt_str_json : Option String → Json
  | none => .null
  | some s => .str s

def opt_num_json : Option ℚ → Json
  | none => .null
  | some q => .num q

/-- The `fearGreed` dict as written (key order of the default skeleton and of
every reading the fetchers build). -/
def fng_to_json (r : FngReading) : Json :=
  .obj [("value", opt_num_json r.value), ("label", opt_str_json r.label),
        ("asof", opt_str_json r.asof), ("source", opt_str_json r.source)]

/-- The `vix` dict as written. -/
def vix_to_json (r : VixReading) : Json :=
  .obj [("value", opt_num_json r.value), ("asof", opt_str_json r.asof),
        ("source", opt_str_json r.source)]

/-- The whole snapshot as the JSON object `main` writes. -/
def market_to_json (m : Market) : Json :=
  .obj [("updatedAt", opt_str_json m.updatedAt), ("fearGreed", fng_to_json m.fearGreed),
        ("vix", vix_to_json m.vix), ("notes", .arr (m.notes.map Json.str))]

/-- The default skeleton of `load_existing_market` (lines 74-80): all values
null, empty notes list. -/
def default_market_json : Json :=
  .obj [("updatedAt", .null),
        ("fearGreed", .obj [("value", .null), ("label", .null), ("asof", .null),
          ("source", .null)]),
        ("vix", .obj [("value", .null), ("asof", .null), ("source", .null)]),
        ("notes", .arr [])]

/-- The state of `data/market.json` before a run. -/
inductive MarketFile where
  | absent
  | stored (text : String)

/-- `load_existing_market` (lines 67-80): parse the file if present; any
parse failure (the `except: pass`) and absence both yield the skeleton. -/
def load_existing_market : MarketFile → Json
  | .absent => default_market_json
  | .stored text =>
    match jsonLoads text with
    | some j => j
    | none => default_market_json

/-! ### Digit arithmetic for the number codec -/

/-- The digit character of `d < 10` is a digit and carries the value `d`. -/
theorem digitCh_spec (d : ℕ) (h : d < 10) :
    isDigitCh (digitCh d) = true ∧ digitVal (digitCh d) = d := by
  interval_cases d <;> exact ⟨rfl, rfl⟩

theorem digitsVal_single (c : Char) : digitsVal [c] = digitVal c := by
  simp [digitsVal, List.foldl_cons, List.foldl_nil]

/-- Folding from an accumulator shifts it by the digit count. -/
theorem digitsVal_foldl (l : List Char) : ∀ acc : ℕ,
    l.foldl (fun a c => 10 * a + digitVal c) acc = acc * 10 ^ l.length + digitsVal l := by
  induction l with
  | nil => intro acc; simp [digitsVal]
  | cons c t ih =>
    intro acc
    have h1 := ih (10 * acc + digitVal c)
    have h2 := ih (10 * 0 + digitVal c)
    simp only [List.foldl_cons]
    rw [h1, show digitsVal (c :: t) = t.foldl (fun a c => 10 * a + digitVal c) (10 * 0 + digitVal c)
      from rfl, h2, List.length_cons, pow_succ]
    ring

theorem digitsVal_append (a b : List Char) :
    digitsVal (a ++ b) = digitsVal a * 10 ^ b.length + digitsVal b := by
  rw [show digitsVal (a ++ b) = (a ++ b).foldl (fun a c => 10 * a + digitVal c) 0 from rfl,
    List.foldl_append]
  exact digitsVal_foldl b _

/-- Leading zeros do not change the value. -/
theorem digitsVal_zeros (n : ℕ) (l : List Char) :
    digitsVal (List.replicate n '0' ++ l) = digitsVal l := by
  rw [digitsVal_append]
  have h : digitsVal (List.replicate n '0') = 0 := by
    induction n with
    | zero => rfl
    | succ m ih =>
      rw [List.replicate_succ,
        show digitsVal ('0' :: List.replicate m '0')
          = (List.replicate m '0').foldl (fun a c => 10 * a + digitVal c) (10 * 0 + digitVal '0')
          from rfl]
      simpa [digitVal] using ih
  rw [h]
  simp

/-- `natDigitsAux` with enough fuel: nonempty, all digits, right value. -/
theorem natDigitsAux_ok : ∀ (fuel n : ℕ), n < fuel →
    natDigitsAux fuel n ≠ []
    ∧ (∀ c ∈ natDigitsAux fuel n, isDigitCh c = true)
    ∧ digitsVal (natDigitsAux fuel n) = n := by
  intro fuel
  induction fuel with
  | zero => intro n h; omega
  | succ fu ih =>
    intro n _
    rw [natDigitsAux]
    by_cases h10 : n < 10
    · rw [if_pos h10]
      refine ⟨by simp, ?_, ?_⟩
      · intro c hc
        rw [List.mem_singleton] at hc
        subst hc
        exact (digitCh_spec n h10).1
      · rw [digitsVal_single]
        exact (digitCh_spec n h10).2
    · rw [if_neg h10]
      obtain ⟨hne, hdig, hval⟩ := ih (n / 10) (by omega)
      have hm10 : n % 10 < 10 := Nat.mod_lt _ (by omega)
      refine ⟨by simp [hne], ?_, ?_⟩
      · intro c hc
        rw [List.mem_append] at hc
        rcases hc with hc | hc
        · exact hdig c hc
        · rw [List.mem_singleton] at hc
          subst hc
          exact (digitCh_spec _ hm10).1
      · rw [digitsVal_append, hval, digitsVal_single, (digitCh_spec _ hm10).2,
          List.length_singleton, pow_one]
        omega

theorem natDigits_ok (n : ℕ) :
    natDigits n ≠ [] ∧ (∀ c ∈ natDigits n, isDigitCh c = true)
      ∧ digitsVal (natDigits n) = n :=
  natDigitsAux_ok (n + 1) n (by omega)

/-- A list that a digit run may stop at: empty or headed by a non-digit. -/
def notDigitStart : List Char → Bool
  | [] => true
  | c :: _ => !isDigitCh c

/-- `takeWhile`/`dropWhile` split a digit run exactly at its end. -/
theorem take_drop_digits (ds rest : List Char) (hds : ∀ c ∈ ds, isDigitCh c = true)
    (hrest : notDigitStart rest = true) :
    (ds ++ rest).takeWhile isDigitCh = ds ∧ (ds ++ rest).dropWhile isDigitCh = rest := by
  induction ds with
  | nil =>
    simp only [List.nil_append]
    cases rest with
    | nil => exact ⟨rfl, rfl⟩
    | cons c t =>
      simp only [notDigitStart, Bool.not_eq_true'] at hrest
      rw [List.takeWhile_cons, List.dropWhile_cons, hrest]
      exact ⟨rfl, rfl⟩
  | cons d t ih =>
    have hd : isDigitCh d = true := hds d (by simp)
    obtain ⟨h1, h2⟩ := ih fun c hc => hds c (by simp [hc])
    rw [List.cons_append, List.takeWhile_cons, List.dropWhile_cons, hd]
    simp only [if_pos]
    exact ⟨by rw [h1], by rw [h2]⟩

/-! ### `decExp` -/

theorem decExp_dvd (d : ℕ) (h : d ∣ 10 ^ d) : d ∣ 10 ^ decExp d := by
  rw [decExp]
  cases hf : (List.range (d + 1)).find? fun k => decide (d ∣ 10 ^ k) with
  | some k =>
    have hk := List.find?_some hf
    simpa using hk
  | none => simpa using h

/-! ### The number codec round-trip -/

/-- A remainder that cannot extend a rendered number: empty or headed by a
character that is neither a digit nor `.` (every delimiter the renderer puts
after a number — `,`, `\n`, `]`, `}` — qualifies). -/
def goodNumRest : List Char → Bool
  | [] => true
  | c :: _ => !(isDigitCh c || c = '.')

theorem goodNumRest_notDigit (rest : List Char) (h : goodNumRest rest = true) :
    notDigitStart rest = true := by
  cases rest with
  | nil => rfl
  | cons c t =>
    simp only [goodNumRest, Bool.not_eq_true', Bool.or_eq_false_iff] at h
    simp [notDigitStart, h.1]

theorem goodNumRest_ne_dot (c : Char) (t : List Char)
    (h : goodNumRest (c :: t) = true) : c ≠ '.' := by
  simp only [goodNumRest, Bool.not_eq_true', Bool.or_eq_false_iff,
    decide_eq_false_iff_not] at h
  exact h.2

/-- An integer-valued `q ≥ 0` equals the cast of `q.num.toNat`. -/
theorem cast_toNat_of_den_one (q : ℚ) (hq : 0 ≤ q) (hden : q.den = 1) :
    ((q.num.toNat : ℕ) : ℚ) = q := by
  have hnum : 0 ≤ q.num := Rat.num_nonneg.mpr hq
  rw [show ((q.num.toNat : ℕ) : ℚ) = ((q.num.toNat : ℤ) : ℚ) from by push_cast; ring,
    Int.toNat_of_nonneg hnum, ← Rat.num_div_den q, hden]
  norm_num

/-- The positive-number codec round-trip. -/
theorem parsePos_render (q : ℚ) (hq : 0 ≤ q) (hwf : wfNum q = true) (rest : List Char)
    (hrest : goodNumRest rest = true) :
    parsePosNumChars (renderPosNum q ++ rest) = some (q, rest) := by
  have hden : q.den ≠ 0 := q.den_nz
  have hdvd : q.den ∣ 10 ^ decExp q.den := decExp_dvd _ (by simpa [wfNum] using hwf)
  rw [renderPosNum]
  by_cases hk0 : decExp q.den = 0
  · -- integer: the denominator divides 10^0 = 1
    have hden1 : q.den = 1 := by
      rw [hk0, pow_zero] at hdvd
      exact Nat.dvd_one.mp hdvd
    rw [if_pos hk0]
    obtain ⟨hne, hdig, hval⟩ := natDigits_ok q.num.toNat
    obtain ⟨ht, hd⟩ := take_drop_digits (natDigits q.num.toNat) rest hdig
      (goodNumRest_notDigit rest hrest)
    simp only [parsePosNumChars, ht, hd]
    rw [if_neg (by simpa [List.isEmpty_iff] using hne)]
    cases rest with
    | nil => rw [if_neg (by simp), hval, cast_toNat_of_den_one q hq hden1]
    | cons c t =>
      rw [if_neg (by
        simp only [List.head?_cons, Option.some.injEq]
        exact goodNumRest_ne_dot c t hrest)]
      rw [hval, cast_toNat_of_den_one q hq hden1]
  · -- fractional: digits with a decimal point `k` places from the right
    rw [if_neg hk0]
    set k := decExp q.den with hkdef
    set m := q.num.toNat * (10 ^ k / q.den) with hmdef
    obtain ⟨hne, hdig, hval⟩ := natDigits_ok m
    set ds := natDigits m with hds
    set pad := List.replicate (k + 1 - ds.length) '0' ++ ds with hpad
    have hpaddig : ∀ c ∈ pad, isDigitCh c = true := by
      intro c hc
      rw [hpad, List.mem_append] at hc
      rcases hc with hc | hc
      · rw [List.eq_of_mem_replicate hc]
        rfl
      · exact hdig c hc
    have hpadval : digitsVal pad = m := by rw [hpad, digitsVal_zeros, hval]
    have hL : k + 1 ≤ pad.length := by
      rw [hpad, List.length_append, List.length_replicate]
      omega
    have hIlen : 1 ≤ pad.length - k := by omega
    have hIdig : ∀ c ∈ pad.take (pad.length - k), isDigitCh c = true :=
      fun c hc => hpaddig c (List.take_subset _ _ hc)
    have hFdig : ∀ c ∈ pad.drop (pad.length - k), isDigitCh c = true :=
      fun c hc => hpaddig c (List.drop_subset _ _ hc)
    have hFlen : (pad.drop (pad.length - k)).length = k := by
      rw [List.length_drop]
      omega
    have hIlen' : (pad.take (pad.length - k)).length = pad.length - k := by
      rw [List.length_take]
      omega
    -- split the rendered characters at the decimal point
    rw [List.append_assoc]
    obtain ⟨ht, hd⟩ := take_drop_digits (pad.take (pad.length - k))
      ('.' :: (pad.drop (pad.length - k) ++ rest)) hIdig (by rfl)
    rw [show ('.' :: pad.drop (pad.length - k)) ++ rest
        = '.' :: (pad.drop (pad.length - k) ++ rest) from rfl]
    simp only [parsePosNumChars, ht, hd]
    rw [if_neg (by
      simp only [List.isEmpty_iff]
      intro hnil
      rw [hnil] at hIlen'
      simp at hIlen'
      omega)]
    rw [if_pos (by rw [List.head?_cons])]
    obtain ⟨ht2, hd2⟩ := take_drop_digits (pad.drop (pad.length - k)) rest hFdig
      (goodNumRest_notDigit rest hrest)
    rw [List.tail_cons, ht2, hd2]
    rw [if_neg (by
      simp only [List.isEmpty_iff]
      intro hnil
      rw [hnil] at hFlen
      simp at hFlen
      omega)]
    -- the parsed value is `m / 10^k = q`
    have hsplit : digitsVal (pad.take (pad.length - k)) * 10 ^ k
        + digitsVal (pad.drop (pad.length - k)) = m := by
      have := digitsVal_append (pad.take (pad.length - k)) (pad.drop (pad.length - k))
      rw [List.take_append_drop, hpadval, hFlen] at this
      omega
    rw [hFlen, hsplit]
    have hc : 10 ^ k / q.den * q.den = 10 ^ k := Nat.div_mul_cancel hdvd
    have hnum : 0 ≤ q.num := Rat.num_nonneg.mpr hq
    have hqden : ((q.den : ℚ)) ≠ 0 := by
      simpa using hden
    have h10 : ((10 : ℚ)) ^ k ≠ 0 := by positivity
    have hmz : (m : ℤ) = q.num * ((10 ^ k / q.den : ℕ) : ℤ) := by
      rw [hmdef, Nat.cast_mul, Int.toNat_of_nonneg hnum]
    have hcq : ((10 ^ k / q.den : ℕ) : ℚ) = (10 : ℚ) ^ k / (q.den : ℚ) := by
      rw [eq_div_iff hqden,
        show ((10 ^ k / q.den : ℕ) : ℚ) * (q.den : ℚ)
          = ((10 ^ k / q.den * q.den : ℕ) : ℚ) from by push_cast; ring,
        hc]
      push_cast
      ring
    have hval2 : mkRat (m : ℤ) (10 ^ k) = q := by
      rw [Rat.mkRat_eq_div (m : ℤ) (10 ^ k), hmz, Int.cast_mul, Int.cast_natCast, hcq,
        show (((10 : ℕ) ^ k : ℕ) : ℚ) = (10 : ℚ) ^ k from by push_cast; ring,
        div_eq_iff h10]
      have hqd : q * (q.den : ℚ) = (q.num : ℚ) := Rat.mul_den_eq_num q
      field_simp
      linear_combination (-((10 : ℚ) ^ k)) * hqd
    rw [hval2]

/-- A rendered nonnegative number starts with a digit. -/
theorem renderPosNum_head (q : ℚ) :
    ∃ c t, renderPosNum q = c :: t ∧ isDigitCh c = true := by
  rw [renderPosNum]
  by_cases hk0 : decExp q.den = 0
  · rw [if_pos hk0]
    obtain ⟨hne, hdig, _⟩ := natDigits_ok q.num.toNat
    obtain ⟨c, t, hct⟩ := List.exists_cons_of_ne_nil hne
    exact ⟨c, t, hct, hdig c (hct ▸ List.mem_cons_self c t)⟩
  · rw [if_neg hk0]
    set k := decExp q.den with hk
    set ds := natDigits (q.num.toNat * (10 ^ k / q.den)) with hds
    obtain ⟨hne, hdig, _⟩ := natDigits_ok (q.num.toNat * (10 ^ k / q.den))
    set pad := List.replicate (k + 1 - ds.length) '0' ++ ds with hpad
    have hpaddig : ∀ c ∈ pad, isDigitCh c = true := by
      intro c hc
      rw [hpad, List.mem_append] at hc
      rcases hc with hc | hc
      · rw [List.eq_of_mem_replicate hc]
        rfl
      · exact hdig c hc
    have hL : k + 1 ≤ pad.length := by
      rw [hpad, List.length_append, List.length_replicate]
      omega
    have hlen : (pad.take (pad.length - k)).length = pad.length - k := by
      rw [List.length_take]
      omega
    have hpos : (pad.take (pad.length - k)) ≠ [] := by
      intro hnil
      rw [hnil] at hlen
      simp at hlen
      omega
    obtain ⟨c, t, hct⟩ := List.exists_cons_of_ne_nil hpos
    refine ⟨c, t ++ '.' :: pad.drop (pad.length - k), ?_, ?_⟩
    · simp only []
      rw [hct, List.cons_append]
    · exact hpaddig c (List.take_subset _ _ (hct ▸ List.mem_cons_self c t))

/-- The number codec round-trip, signs included. -/
theorem parseNum_render (q : ℚ) (hwf : wfNum q = true) (rest : List Char)
    (hrest : goodNumRest rest = true) :
    parseNumChars (renderNumChars q ++ rest) = some (q, rest) := by
  rw [renderNumChars]
  by_cases hneg : q < 0
  · rw [if_pos hneg, List.cons_append]
    have hwf' : wfNum (-q) = true := hwf
    have hq' : 0 ≤ -q := neg_nonneg.mpr (le_of_lt hneg)
    rw [show parseNumChars ('-' :: (renderPosNum (-q) ++ rest))
        = (parsePosNumChars (renderPosNum (-q) ++ rest)).map fun qr => (-qr.1, qr.2) from by
      rw [parseNumChars]; exact if_pos rfl]
    rw [parsePos_render (-q) hq' hwf' rest hrest]
    simp
  · rw [if_neg hneg]
    have hq : 0 ≤ q := not_lt.mp hneg
    obtain ⟨c, t, hct, hcd⟩ := renderPosNum_head q
    rw [hct, List.cons_append, parseNumChars,
      if_neg (fun h : c = '-' => by subst h; exact absurd hcd (by decide)),
      ← List.cons_append, ← hct]
    exact parsePos_render q hq hwf rest hrest

/-! ### The string codec round-trip -/

/-- A printable character other than `"` and `\` passes through unescaped. -/
theorem escapeChar_plain (c : Char) (h32 : 32 ≤ c.toNat) (hq : c ≠ '"') (hb : c ≠ '\\') :
    escapeChar c = [c] := by
  rw [escapeChar, if_neg hq, if_neg hb,
    if_neg (fun h : c = '\n' => by subst h; revert h32; decide),
    if_neg (fun h : c = '\r' => by subst h; revert h32; decide),
    if_neg (fun h : c = '\t' => by subst h; revert h32; decide),
    if_neg (fun h : c.toNat = 8 => by omega),
    if_neg (fun h : c.toNat = 12 => by omega),
    if_neg (fun h : c.toNat < 32 => by omega)]

/-- Parsing a rendered string body recovers it up to the closing quote. -/
theorem parseStrBody_esc (s : List Char) (h : ∀ c ∈ s, 32 ≤ c.toNat) :
    ∀ rest : List Char, parseStrBody (escStr s ++ '"' :: rest) = some (s, rest) := by
  induction s with
  | nil =>
    intro rest
    rw [show escStr [] ++ '"' :: rest = '"' :: rest from rfl]
    rw [parseStrBody.eq_def]
    simp
  | cons c t ih =>
    intro rest
    have hc := h c (by simp)
    have iht := ih (fun x hx => h x (by simp [hx])) rest
    rw [show escStr (c :: t) = escapeChar c ++ escStr t from rfl, List.append_assoc]
    by_cases hq : c = '"'
    · subst hq
      simp [parseStrBody, unescCh, iht]
    · by_cases hb : c = '\\'
      · subst hb
        simp [parseStrBody, unescCh, iht]
      · rw [escapeChar_plain c hc hq hb, List.singleton_append]
        rw [parseStrBody.eq_def]
        simp only [if_neg hq, if_neg hb, iht]
        rfl

/-! ### Whitespace handling -/

theorem skipWsJ_cons_ws (c : Char) (h : isWsJ c = true) (l : List Char) :
    skipWsJ (c :: l) = skipWsJ l := by
  rw [skipWsJ, List.dropWhile_cons, h]
  rfl

theorem skipWsJ_cons_not (c : Char) (h : isWsJ c = false) (l : List Char) :
    skipWsJ (c :: l) = c :: l := by
  rw [skipWsJ, List.dropWhile_cons, h]
  rfl

theorem skipWsJ_indent (n : ℕ) (l : List Char) :
    skipWsJ (List.replicate n ' ' ++ l) = skipWsJ l := by
  induction n with
  | zero => rfl
  | succ m ih => rw [List.replicate_succ, List.cons_append, skipWsJ_cons_ws ' ' rfl, ih]

/-- The whitespace after a comma or opening bracket (newline plus indent) is
skipped entirely. -/
theorem skipWsJ_nl_indent (lvl : ℕ) (l : List Char) :
    skipWsJ ('\n' :: (indentChars lvl ++ l)) = skipWsJ l := by
  rw [skipWsJ_cons_ws '\n' rfl, indentChars, skipWsJ_indent]

/-! ### Head-character facts and one-step unfoldings of the parser -/

theorem skipWsJ_idem (l : List Char) : skipWsJ (skipWsJ l) = skipWsJ l := by
  induction l with
  | nil => rfl
  | cons c t ih =>
    by_cases h : isWsJ c = true
    · rw [skipWsJ_cons_ws c h]
      exact ih
    · rw [skipWsJ_cons_not c (by simpa using h), skipWsJ_cons_not c (by simpa using h)]

theorem parseValue_ws (fuel : ℕ) (a b : List Char) (h : skipWsJ a = skipWsJ b) :
    parseValue fuel a = parseValue fuel b := by
  cases fuel with
  | zero => rfl
  | succ fu => simp only [parseValue, h]

/-- A digit character is one of the ten digit literals. -/
theorem digit_char_cases (c : Char) (h : isDigitCh c = true) :
    c = '0' ∨ c = '1' ∨ c = '2' ∨ c = '3' ∨ c = '4' ∨ c = '5' ∨ c = '6' ∨ c = '7'
      ∨ c = '8' ∨ c = '9' := by
  simp only [isDigitCh, Bool.and_eq_true, decide_eq_true_eq] at h
  obtain ⟨h1, h2⟩ := h
  have h1' : 48 ≤ c.toNat := h1
  have h2' : c.toNat ≤ 57 := h2
  interval_cases hc : c.toNat <;> (rw [← Char.ofNat_toNat c, hc]; decide)

/-- The one rendered head a number can have besides a digit. -/
theorem renderNumChars_head (q : ℚ) :
    ∃ c t, renderNumChars q = c :: t ∧ (c = '-' ∨ isDigitCh c = true) := by
  rw [renderNumChars]
  by_cases hneg : q < 0
  · rw [if_pos hneg]
    exact ⟨'-', _, rfl, Or.inl rfl⟩
  · rw [if_neg hneg]
    obtain ⟨c, t, hct, hcd⟩ := renderPosNum_head q
    exact ⟨c, t, hct, Or.inr hcd⟩

/-- Every rendered value starts with a non-whitespace character that closes
neither an array nor an object. -/
theorem renderJson_head (lvl : ℕ) (j : Json) :
    ∃ c t, renderJson lvl j = c :: t ∧ isWsJ c = false ∧ c ≠ ']' ∧ c ≠ rbraceCh := by
  cases j with
  | null => exact ⟨'n', _, rfl, rfl, by decide, by decide⟩
  | bool b =>
    cases b with
    | false => exact ⟨'f', _, rfl, rfl, by decide, by decide⟩
    | true => exact ⟨'t', _, rfl, rfl, by decide, by decide⟩
  | str s => exact ⟨'"', _, rfl, rfl, by decide, by decide⟩
  | num q =>
    obtain ⟨c, t, hct, hcc⟩ := renderNumChars_head q
    rcases hcc with rfl | hcd
    · exact ⟨'-', t, hct, rfl, by decide, by decide⟩
    · rcases digit_char_cases c hcd with rfl|rfl|rfl|rfl|rfl|rfl|rfl|rfl|rfl|rfl <;>
        exact ⟨_, t, hct, rfl, by decide, by decide⟩
  | arr l =>
    by_cases he : l.isEmpty = true
    · exact ⟨'[', _, by rw [renderJson, if_pos he], rfl, by decide, by decide⟩
    · exact ⟨'[', _, by rw [renderJson, if_neg he], rfl, by decide, by decide⟩
  | obj kvs =>
    by_cases he : kvs.isEmpty = true
    · exact ⟨lbraceCh, _, by rw [renderJson, if_pos he], by decide, by decide, by decide⟩
    · exact ⟨lbraceCh, _, by rw [renderJson, if_neg he], by decide, by decide, by decide⟩

theorem pv_null_step (fu : ℕ) (r : List Char) :
    parseValue (fu + 1) ('n' :: 'u' :: 'l' :: 'l' :: r) = some (Json.null, r) := rfl

theorem pv_true_step (fu : ℕ) (r : List Char) :
    parseValue (fu + 1) ('t' :: 'r' :: 'u' :: 'e' :: r) = some (Json.bool true, r) := rfl

theorem pv_false_step (fu : ℕ) (r : List Char) :
    parseValue (fu + 1) ('f' :: 'a' :: 'l' :: 's' :: 'e' :: r) = some (Json.bool false, r) := rfl

theorem pv_str_step (fu : ℕ) (X : List Char) :
    parseValue (fu + 1) ('"' :: X)
      = (parseStrBody X).map fun pr => (Json.str (String.mk pr.1), pr.2) := rfl

theorem pv_obj_step (fu : ℕ) (X : List Char) :
    parseValue (fu + 1) (lbraceCh :: X)
      = (match skipWsJ X with
        | [] => none
        | c2 :: r2 =>
          if c2 = rbraceCh then some (Json.obj [], r2)
          else (parseMembers fu (c2 :: r2)).map fun pr => (Json.obj pr.1, pr.2)) := rfl

theorem pv_arr_step (fu : ℕ) (X : List Char) :
    parseValue (fu + 1) ('[' :: X)
      = (match skipWsJ X with
        | [] => none
        | c2 :: r2 =>
          if c2 = ']' then some (Json.arr [], r2)
          else (parseItems fu (c2 :: r2)).map fun pr => (Json.arr pr.1, pr.2)) := rfl

theorem pv_neg_step (fu : ℕ) (X : List Char) :
    parseValue (fu + 1) ('-' :: X)
      = (parseNumChars ('-' :: X)).map fun pr => (Json.num pr.1, pr.2) := rfl

theorem pv_digit_step (fu : ℕ) (c : Char) (X : List Char) (h : isDigitCh c = true) :
    parseValue (fu + 1) (c :: X)
      = (parseNumChars (c :: X)).map fun pr => (Json.num pr.1, pr.2) := by
  rcases digit_char_cases c h with rfl|rfl|rfl|rfl|rfl|rfl|rfl|rfl|rfl|rfl <;> rfl

theorem pm_key_step (fu : ℕ) (Y : List Char) :
    parseMembers (fu + 1) ('"' :: Y)
      = (parseStrBody Y).bind fun kr =>
          match skipWsJ kr.2 with
          | ':' :: r2 =>
            (parseValue fu r2).bind fun vr =>
              match skipWsJ vr.2 with
              | c3 :: r3 =>
                if c3 = ',' then
                  (parseMembers fu (skipWsJ r3)).map fun mr =>
                    ((String.mk kr.1, vr.1) :: mr.1, mr.2)
                else if c3 = rbraceCh then some ([(String.mk kr.1, vr.1)], r3)
                else none
              | [] => none
          | _ => none := rfl

theorem pi_step (fu : ℕ) (s : List Char) :
    parseItems (fu + 1) s
      = (parseValue fu s).bind fun vr =>
          match skipWsJ vr.2 with
          | c :: r =>
            if c = ',' then (parseItems fu (skipWsJ r)).map fun ir => (vr.1 :: ir.1, ir.2)
            else if c = ']' then some ([vr.1], r)
            else none
          | [] => none := rfl

/-! ### Shapes of rendered member and item lists -/

theorem some_bind_eq {α β : Type} (a : α) (f : α → Option β) : (some a).bind f = f a := rfl

theorem some_map_eq {α β : Type} (a : α) (f : α → β) : (some a).map f = some (f a) := rfl

theorem wfStr_chars (s : String) (h : wfStr s = true) : ∀ c ∈ s.data, 32 ≤ c.toNat := by
  intro c hc
  have := List.all_eq_true.mp h c hc
  simpa using this

/-! Sizes that bound the parser fuel needed for a value. -/

mutual

def fsizeV : Json → ℕ
  | .obj kvs => 1 + fsizeM kvs
  | .arr l => 1 + fsizeI l
  | _ => 1

def fsizeM : List (String × Json) → ℕ
  | [] => 1
  | kv :: t => 1 + fsizeV kv.2 + fsizeM t

def fsizeI : List Json → ℕ
  | [] => 1
  | x :: t => 1 + fsizeV x + fsizeI t

end

theorem fsizeV_pos (j : Json) : 1 ≤ fsizeV j := by
  cases j <;> simp [fsizeV]

theorem fsizeM_pos (kvs : List (String × Json)) : 1 ≤ fsizeM kvs := by
  cases kvs <;> simp [fsizeM] <;> omega

theorem fsizeI_pos (l : List Json) : 1 ≤ fsizeI l := by
  cases l <;> simp [fsizeI] <;> omega

/-- The rendered last member, behind its whitespace: key, colon, space, value,
then the closing text. -/
theorem renderMembers_shape_one (lvl : ℕ) (kv : String × Json) (z : List Char) :
    skipWsJ (renderMembers lvl [kv] ++ z)
      = '"' :: (escStr kv.1.data ++ '"' :: (':' :: (' ' :: (renderJson lvl kv.2 ++ z)))) := by
  have h1 : renderMembers lvl [kv] ++ z
      = '\n' :: (indentChars lvl
          ++ ('"' :: (escStr kv.1.data ++ '"' :: (':' :: (' ' :: (renderJson lvl kv.2 ++ z)))))) := by
    rw [renderMembers, renderStrChars]
    simp [List.append_assoc, renderMembers]
  rw [h1, skipWsJ_nl_indent, skipWsJ_cons_not '"' rfl]

/-- The rendered non-last member: as above, with a comma and the remaining
members before the closing text. -/
theorem renderMembers_shape_cons (lvl : ℕ) (kv kv2 : String × Json)
    (t2 : List (String × Json)) (z : List Char) :
    skipWsJ (renderMembers lvl (kv :: kv2 :: t2) ++ z)
      = '"' :: (escStr kv.1.data ++ '"' :: (':' :: (' ' :: (renderJson lvl kv.2
          ++ ',' :: (renderMembers lvl (kv2 :: t2) ++ z))))) := by
  have h1 : renderMembers lvl (kv :: kv2 :: t2) ++ z
      = '\n' :: (indentChars lvl ++ ('"' :: (escStr kv.1.data ++ '"' :: (':' :: (' ' :: (renderJson lvl kv.2
          ++ ',' :: (renderMembers lvl (kv2 :: t2) ++ z))))))) := by
    rw [renderMembers, renderStrChars]
    simp [List.append_assoc]
  rw [h1, skipWsJ_nl_indent, skipWsJ_cons_not '"' rfl]

/-- The rendered last item, behind its whitespace. -/
theorem renderItems_shape_one (lvl : ℕ) (x : Json) (z : List Char) :
    skipWsJ (renderItems lvl [x] ++ z) = skipWsJ (renderJson lvl x ++ z) := by
  have h1 : renderItems lvl [x] ++ z
      = '\n' :: (indentChars lvl ++ (renderJson lvl x ++ z)) := by
    rw [renderItems]
    simp [List.append_assoc, renderItems]
  rw [h1, skipWsJ_nl_indent]

/-- The rendered non-last item, behind its whitespace. -/
theorem renderItems_shape_cons (lvl : ℕ) (x y : Json) (t2 : List Json) (z : List Char) :
    skipWsJ (renderItems lvl (x :: y :: t2) ++ z)
      = skipWsJ (renderJson lvl x ++ ',' :: (renderItems lvl (y :: t2) ++ z)) := by
  have h1 : renderItems lvl (x :: y :: t2) ++ z
      = '\n' :: (indentChars lvl ++ (renderJson lvl x ++ ',' :: (renderItems lvl (y :: t2) ++ z))) := by
    rw [renderItems]
    simp [List.append_assoc]
  rw [h1, skipWsJ_nl_indent]


/-! ### One fully shaped member, reduced to its value parse -/

theorem goodNumRest_nl (l : List Char) : goodNumRest ('\n' :: l) = true := rfl

theorem goodNumRest_comma (l : List Char) : goodNumRest (',' :: l) = true := rfl

/-- `parseMembers` on a rendered key, colon and space: down to the value. -/
theorem pm_full_step (fu : ℕ) (key w : List Char) (hkey : ∀ c ∈ key, 32 ≤ c.toNat) :
    parseMembers (fu + 1) ('"' :: (escStr key ++ '"' :: (':' :: (' ' :: w))))
      = (parseValue fu (' ' :: w)).bind fun vr =>
          match skipWsJ vr.2 with
          | c3 :: r3 =>
            if c3 = ',' then
              (parseMembers fu (skipWsJ r3)).map fun mr =>
                ((String.mk key, vr.1) :: mr.1, mr.2)
            else if c3 = rbraceCh then some ([(String.mk key, vr.1)], r3)
            else none
          | [] => none := by
  rw [pm_key_step fu, parseStrBody_esc key hkey]
  rfl

/-- A rendered item list, behind its whitespace, starts with a character that
opens a value (never whitespace or a closing bracket). -/
theorem renderItems_skip_head (lvl : ℕ) (x : Json) (t : List Json) (z : List Char) :
    ∃ c r, skipWsJ (renderItems lvl (x :: t) ++ z) = c :: r
      ∧ isWsJ c = false ∧ c ≠ ']' ∧ c ≠ rbraceCh := by
  obtain ⟨c, t2, hct, hcw, hcb, hcr⟩ := renderJson_head lvl x
  cases t with
  | nil =>
    refine ⟨c, t2 ++ z, ?_, hcw, hcb, hcr⟩
    rw [renderItems_shape_one, hct, List.cons_append, skipWsJ_cons_not c hcw]
  | cons y t3 =>
    refine ⟨c, t2 ++ ',' :: (renderItems lvl (y :: t3) ++ z), ?_, hcw, hcb, hcr⟩
    rw [renderItems_shape_cons, hct, List.cons_append, skipWsJ_cons_not c hcw]

/-- A rendered member list, behind its whitespace, starts with the quote of
its first key. -/
theorem renderMembers_skip_head (lvl : ℕ) (kv : String × Json)
    (t : List (String × Json)) (z : List Char) :
    ∃ r, skipWsJ (renderMembers lvl (kv :: t) ++ z) = '"' :: r := by
  cases t with
  | nil => exact ⟨_, renderMembers_shape_one lvl kv z⟩
  | cons kv2 t2 => exact ⟨_, renderMembers_shape_cons lvl kv kv2 t2 z⟩


/-! ### The round-trip of the rendered JSON through the parser -/

mutual

/-- Parsing a rendered value recovers it, before any remainder a number
cannot absorb. -/
theorem parse_render_val (lvl fuel : ℕ) (j : Json) (rest : List Char)
    (hwf : wfJson j = true) (hfu : fsizeV j ≤ fuel) (hrest : goodNumRest rest = true) :
    parseValue fuel (renderJson lvl j ++ rest) = some (j, rest) := by
  obtain ⟨fu, rfl⟩ : ∃ fu, fuel = fu + 1 := ⟨fuel - 1, by have := fsizeV_pos j; omega⟩
  cases j with
  | null => exact pv_null_step fu rest
  | bool b =>
    cases b with
    | true => exact pv_true_step fu rest
    | false => exact pv_false_step fu rest
  | num q =>
    have hwq : wfNum q = true := hwf
    have hpn : parseNumChars (renderNumChars q ++ rest) = some (q, rest) :=
      parseNum_render q hwq rest hrest
    obtain ⟨c, t, hct, hcc⟩ := renderNumChars_head q
    have hrj : renderJson lvl (Json.num q) = renderNumChars q := rfl
    rcases hcc with rfl | hcd
    · rw [hrj, hct, List.cons_append, pv_neg_step fu, ← List.cons_append, ← hct, hpn]
      rfl
    · rw [hrj, hct, List.cons_append, pv_digit_step fu c _ hcd, ← List.cons_append, ← hct, hpn]
      rfl
  | str s =>
    have hw : ∀ c ∈ s.data, 32 ≤ c.toNat := wfStr_chars s hwf
    have hrj : renderJson lvl (Json.str s) = '"' :: (escStr s.data ++ ['"']) := rfl
    rw [hrj, List.cons_append, pv_str_step fu, List.append_assoc,
      List.singleton_append, parseStrBody_esc s.data hw rest]
    rfl
  | arr l =>
    cases l with
    | nil =>
      have hrj : renderJson lvl (Json.arr []) ++ rest = '[' :: (']' :: rest) := rfl
      rw [hrj, pv_arr_step fu, skipWsJ_cons_not ']' rfl]
      rfl
    | cons x t =>
      have hwl : wfItems (x :: t) = true := hwf
      have hfl : fsizeI (x :: t) ≤ fu := by
        have h := hfu
        rw [fsizeV] at h
        omega
      have hrj : renderJson lvl (Json.arr (x :: t)) ++ rest
          = '[' :: (renderItems (lvl + 1) (x :: t)
              ++ '\n' :: (indentChars lvl ++ (']' :: rest))) := by
        rw [renderJson, if_neg (by simp)]
        simp [List.append_assoc]
      obtain ⟨c, r, hcr, hcw, hcb, hcb2⟩ :=
        renderItems_skip_head (lvl + 1) x t ('\n' :: (indentChars lvl ++ (']' :: rest)))
      have hitems := parse_render_items (lvl + 1) lvl fu (x :: t) rest hwl (by simp) hfl
      rw [hrj, pv_arr_step fu, hcr]
      simp only []
      rw [if_neg hcb, ← hcr, hitems]
      rfl
  | obj kvs =>
    cases kvs with
    | nil =>
      have hrj : renderJson lvl (Json.obj []) ++ rest = lbraceCh :: (rbraceCh :: rest) := rfl
      rw [hrj, pv_obj_step fu, skipWsJ_cons_not rbraceCh rfl]
      rfl
    | cons kv t =>
      have hwl : wfMembers (kv :: t) = true := hwf
      have hfl : fsizeM (kv :: t) ≤ fu := by
        have h := hfu
        rw [fsizeV] at h
        omega
      have hrj : renderJson lvl (Json.obj (kv :: t)) ++ rest
          = lbraceCh :: (renderMembers (lvl + 1) (kv :: t)
              ++ '\n' :: (indentChars lvl ++ (rbraceCh :: rest))) := by
        rw [renderJson, if_neg (by simp)]
        simp [List.append_assoc]
      obtain ⟨r, hr⟩ :=
        renderMembers_skip_head (lvl + 1) kv t ('\n' :: (indentChars lvl ++ (rbraceCh :: rest)))
      have hmem := parse_render_members (lvl + 1) lvl fu (kv :: t) rest hwl (by simp) hfl
      rw [hrj, pv_obj_step fu, hr]
      simp only []
      rw [if_neg (by decide : ¬('"' = rbraceCh)), ← hr, hmem]
      rfl

/-- Parsing a rendered member list, behind its leading whitespace, recovers
it up to the closing brace. -/
theorem parse_render_members (lvl cl fuel : ℕ) (kvs : List (String × Json))
    (rest : List Char) (hwf : wfMembers kvs = true) (hne : kvs ≠ [])
    (hfu : fsizeM kvs ≤ fuel) :
    parseMembers fuel
        (skipWsJ (renderMembers lvl kvs ++ '\n' :: (indentChars cl ++ (rbraceCh :: rest))))
      = some (kvs, rest) := by
  obtain ⟨fu, rfl⟩ : ∃ fu, fuel = fu + 1 := ⟨fuel - 1, by have := fsizeM_pos kvs; omega⟩
  cases kvs with
  | nil => exact absurd rfl hne
  | cons kv t =>
    obtain ⟨key, v⟩ := kv
    simp only [wfMembers, Bool.and_eq_true] at hwf
    obtain ⟨⟨hwk, hwv⟩, hwt⟩ := hwf
    have hfv : fsizeV v ≤ fu ∧ fsizeM t ≤ fu := by
      have h := hfu
      simp only [fsizeM] at h
      omega
    cases t with
    | nil =>
      rw [renderMembers_shape_one lvl (key, v)]
      simp only []
      rw [pm_full_step fu key.data _ (wfStr_chars key hwk),
        parseValue_ws fu
          (' ' :: (renderJson lvl v ++ '\n' :: (indentChars cl ++ (rbraceCh :: rest))))
          (renderJson lvl v ++ '\n' :: (indentChars cl ++ (rbraceCh :: rest)))
          (skipWsJ_cons_ws ' ' rfl _),
        parse_render_val lvl fu v _ hwv hfv.1 (goodNumRest_nl _), some_bind_eq]
      simp only []
      rw [skipWsJ_nl_indent, skipWsJ_cons_not rbraceCh rfl]
      simp only []
      rw [if_neg (by decide : ¬(rbraceCh = ',')), if_pos trivial]
    | cons kv2 t2 =>
      rw [renderMembers_shape_cons lvl (key, v) kv2 t2]
      simp only []
      rw [pm_full_step fu key.data _ (wfStr_chars key hwk),
        parseValue_ws fu
          (' ' :: (renderJson lvl v ++ ',' :: (renderMembers lvl (kv2 :: t2)
            ++ '\n' :: (indentChars cl ++ (rbraceCh :: rest)))))
          (renderJson lvl v ++ ',' :: (renderMembers lvl (kv2 :: t2)
            ++ '\n' :: (indentChars cl ++ (rbraceCh :: rest))))
          (skipWsJ_cons_ws ' ' rfl _),
        parse_render_val lvl fu v _ hwv hfv.1 (goodNumRest_comma _), some_bind_eq]
      simp only []
      rw [skipWsJ_cons_not ',' rfl]
      simp only []
      rw [if_pos trivial, parse_render_members lvl cl fu (kv2 :: t2) rest hwt (by simp) hfv.2]
      rfl

/-- Parsing a rendered item list, behind its leading whitespace, recovers it
up to the closing bracket. -/
theorem parse_render_items (lvl cl fuel : ℕ) (l : List Json) (rest : List Char)
    (hwf : wfItems l = true) (hne : l ≠ []) (hfu : fsizeI l ≤ fuel) :
    parseItems fuel
        (skipWsJ (renderItems lvl l ++ '\n' :: (indentChars cl ++ (']' :: rest))))
      = some (l, rest) := by
  obtain ⟨fu, rfl⟩ : ∃ fu, fuel = fu + 1 := ⟨fuel - 1, by have := fsizeI_pos l; omega⟩
  cases l with
  | nil => exact absurd rfl hne
  | cons x t =>
    simp only [wfItems, Bool.and_eq_true] at hwf
    obtain ⟨hwx, hwt⟩ := hwf
    have hfx : fsizeV x ≤ fu ∧ fsizeI t ≤ fu := by
      have h := hfu
      simp only [fsizeI] at h
      omega
    cases t with
    | nil =>
      rw [renderItems_shape_one, pi_step fu,
        parseValue_ws fu
          (skipWsJ (renderJson lvl x ++ '\n' :: (indentChars cl ++ (']' :: rest))))
          (renderJson lvl x ++ '\n' :: (indentChars cl ++ (']' :: rest)))
          (skipWsJ_idem _),
        parse_render_val lvl fu x _ hwx hfx.1 (goodNumRest_nl _), some_bind_eq]
      simp only []
      rw [skipWsJ_nl_indent, skipWsJ_cons_not ']' rfl]
      simp only []
      rw [if_neg (by decide : ¬(']' = ',')), if_pos trivial]
    | cons y t2 =>
      rw [renderItems_shape_cons, pi_step fu,
        parseValue_ws fu
          (skipWsJ (renderJson lvl x ++ ',' :: (renderItems lvl (y :: t2)
            ++ '\n' :: (indentChars cl ++ (']' :: rest)))))
          (renderJson lvl x ++ ',' :: (renderItems lvl (y :: t2)
            ++ '\n' :: (indentChars cl ++ (']' :: rest))))
          (skipWsJ_idem _),
        parse_render_val lvl fu x _ hwx hfx.1 (goodNumRest_comma _), some_bind_eq]
      simp only []
      rw [skipWsJ_cons_not ',' rfl]
      simp only []
      rw [if_pos trivial, parse_render_items lvl cl fu (y :: t2) rest hwt (by simp) hfx.2]
      rfl

end


/-! ### The fuel `jsonLoads` allots suffices for anything `jsonDumps` wrote -/

mutual

theorem fsizeV_le (lvl : ℕ) (j : Json) : fsizeV j ≤ (renderJson lvl j).length := by
  cases j with
  | null =>
    rw [show renderJson lvl Json.null = ['n', 'u', 'l', 'l'] from rfl]
    decide
  | bool b =>
    cases b with
    | true =>
      rw [show renderJson lvl (Json.bool true) = ['t', 'r', 'u', 'e'] from rfl]
      decide
    | false =>
      rw [show renderJson lvl (Json.bool false) = ['f', 'a', 'l', 's', 'e'] from rfl]
      decide
  | num q =>
    obtain ⟨c, t, hct, hcd⟩ := renderNumChars_head q
    rw [show renderJson lvl (Json.num q) = renderNumChars q from rfl, hct]
    simp only [fsizeV, List.length_cons]
    omega
  | str s =>
    rw [show renderJson lvl (Json.str s) = '"' :: (escStr s.data ++ ['"']) from rfl]
    simp only [fsizeV, List.length_cons]
    omega
  | arr l =>
    cases l with
    | nil =>
      have hr : renderJson lvl (Json.arr []) = ['[', ']'] := rfl
      rw [hr]
      decide
    | cons x t =>
      have hI := fsizeI_le (lvl + 1) (x :: t)
      have hr : renderJson lvl (Json.arr (x :: t))
          = '[' :: (renderItems (lvl + 1) (x :: t)
              ++ '\n' :: (indentChars lvl ++ [']'])) := by
        rw [renderJson, if_neg (by simp)]
      simp only [fsizeV, hr, List.length_cons, List.length_append, indentChars,
        List.length_replicate]
      omega
  | obj kvs =>
    cases kvs with
    | nil =>
      have hr : renderJson lvl (Json.obj []) = [lbraceCh, rbraceCh] := rfl
      rw [hr]
      decide
    | cons kv t =>
      have hM := fsizeM_le (lvl + 1) (kv :: t)
      have hr : renderJson lvl (Json.obj (kv :: t))
          = lbraceCh :: (renderMembers (lvl + 1) (kv :: t)
              ++ '\n' :: (indentChars lvl ++ [rbraceCh])) := by
        rw [renderJson, if_neg (by simp)]
      simp only [fsizeV, hr, List.length_cons, List.length_append, indentChars,
        List.length_replicate]
      omega

theorem fsizeM_le (lvl : ℕ) (kvs : List (String × Json)) :
    fsizeM kvs ≤ (renderMembers lvl kvs).length + 1 := by
  cases kvs with
  | nil => simp only [fsizeM]; omega
  | cons kv t =>
    obtain ⟨k, v⟩ := kv
    have hV := fsizeV_le lvl v
    have hM := fsizeM_le lvl t
    rw [show renderMembers lvl ((k, v) :: t)
        = ('\n' :: (indentChars lvl ++ (renderStrChars k ++ ':' :: ' ' :: renderJson lvl v)))
          ++ ((if t.isEmpty then [] else [',']) ++ renderMembers lvl t) from rfl]
    simp only [fsizeM, renderStrChars, List.length_cons, List.length_append, indentChars,
      List.length_replicate]
    omega

theorem fsizeI_le (lvl : ℕ) (l : List Json) :
    fsizeI l ≤ (renderItems lvl l).length + 1 := by
  cases l with
  | nil => simp only [fsizeI]; omega
  | cons x t =>
    have hV := fsizeV_le lvl x
    have hI := fsizeI_le lvl t
    rw [show renderItems lvl (x :: t)
        = ('\n' :: (indentChars lvl ++ renderJson lvl x))
          ++ ((if t.isEmpty then [] else [',']) ++ renderItems lvl t) from rfl]
    simp only [fsizeI, List.length_cons, List.length_append, indentChars,
      List.length_replicate]
    omega

end

/-- Dumping any well-formed value and loading it back restores it. -/
theorem jsonLoads_dumps (j : Json) (hwf : wfJson j = true) :
    jsonLoads (jsonDumps j) = some j := by
  have h := parse_render_val 0 ((renderJson 0 j).length + 1) j [] hwf
    (le_trans (fsizeV_le 0 j) (Nat.le_succ _)) rfl
  rw [List.append_nil] at h
  rw [jsonLoads.eq_def]
  rw [show (jsonDumps j).data = renderJson 0 j from rfl]
  rw [h]
  simp only []
  rw [if_pos (show skipWsJ [] = [] from rfl)]


/-! ### The envelope of every snapshot the script writes

Every string in a written snapshot is free of control characters (timestamps,
dates, the fixed notes and the rendered exception texts all are), and every
number is a nonnegative integer in `[0, 100]` or a `round(_, 2)` result, so
its denominator divides a power of ten.  `wfMarket` states that envelope;
`wfCsv` is the corresponding envelope of the FRED CSV text (printable
characters and newlines). -/

def wfOptStr : Option String → Bool
  | none => true
  | some s => wfStr s

def wfOptNum : Option ℚ → Bool
  | none => true
  | some q => wfNum q

def wfFng (r : FngReading) : Bool :=
  wfOptNum r.value && wfOptStr r.label && wfOptStr r.asof && wfOptStr r.source

def wfVix (r : VixReading) : Bool :=
  wfOptNum r.value && wfOptStr r.asof && wfOptStr r.source

def wfMarket (m : Market) : Bool :=
  wfOptStr m.updatedAt && wfFng m.fearGreed && wfVix m.vix && m.notes.all wfStr

def wfCsv (s : String) : Bool := s.data.all fun c => 32 ≤ c.toNat || c = '\n'

theorem wfStr_append (a b : String) (ha : wfStr a = true) (hb : wfStr b = true) :
    wfStr (a ++ b) = true := by
  rw [wfStr] at ha hb
  rw [wfStr, String.data_append, List.all_append, ha, hb]
  rfl

theorem wfJson_opt_str (o : Option String) (h : wfOptStr o = true) :
    wfJson (opt_str_json o) = true := by
  cases o with
  | none => rfl
  | some s => exact h

theorem wfJson_opt_num (o : Option ℚ) (h : wfOptNum o = true) :
    wfJson (opt_num_json o) = true := by
  cases o with
  | none => rfl
  | some q => exact h

theorem wfItems_map_str (l : List String) (h : l.all wfStr = true) :
    wfItems (l.map Json.str) = true := by
  induction l with
  | nil => rfl
  | cons s t ih =>
    simp only [List.all_cons, Bool.and_eq_true] at h
    simp only [List.map_cons, wfItems, Bool.and_eq_true]
    exact ⟨h.1, ih h.2⟩

/-- The snapshot's JSON rendering stays inside the codec's envelope. -/
theorem market_to_json_wf (m : Market) (h : wfMarket m = true) :
    wfJson (market_to_json m) = true := by
  simp only [wfMarket, wfFng, wfVix, Bool.and_eq_true] at h
  obtain ⟨⟨⟨hu, ⟨⟨⟨hfv, hfl⟩, hfa⟩, hfs⟩⟩, ⟨⟨hvv, hva⟩, hvs⟩⟩, hn⟩ := h
  simp [market_to_json, fng_to_json, vix_to_json, wfJson, wfMembers, wfItems,
    wfJson_opt_str _ hu, wfJson_opt_num _ hfv, wfJson_opt_str _ hfl, wfJson_opt_str _ hfa,
    wfJson_opt_str _ hfs, wfJson_opt_num _ hvv, wfJson_opt_str _ hva, wfJson_opt_str _ hvs,
    wfItems_map_str m.notes hn,
    (by decide : wfStr "updatedAt" = true), (by decide : wfStr "fearGreed" = true),
    (by decide : wfStr "vix" = true), (by decide : wfStr "notes" = true),
    (by decide : wfStr "value" = true), (by decide : wfStr "label" = true),
    (by decide : wfStr "asof" = true), (by decide : wfStr "source" = true)]


/-! ### The values the fetchers build stay inside the envelope -/

theorem wfNum_natCast (v : ℕ) : wfNum ((v : ℕ) : ℚ) = true := by
  rw [wfNum, Rat.den_natCast]
  rfl

theorem round2_den_dvd (q : ℚ) : (round2 q).den ∣ 100 := by
  rw [round2, Rat.mkRat_eq_divInt]
  have h := Rat.den_dvd (roundHalfEven (mkRat (q.num * 100) q.den)) 100
  exact_mod_cast h

theorem wfNum_round2 (q : ℚ) : wfNum (round2 q) = true := by
  have hd : (round2 q).den ∣ 100 := round2_den_dvd q
  simp only [wfNum, decide_eq_true_eq]
  rcases Nat.lt_or_ge (round2 q).den 2 with h2 | h2
  · have h0 := (round2 q).den_nz
    have h1 : (round2 q).den = 1 := by omega
    rw [h1]
    decide
  · exact hd.trans (by
      rw [show (100 : ℕ) = 10 ^ 2 from rfl]
      exact pow_dvd_pow 10 h2)

theorem label_fng_wf (o : Option ℕ) : wfOptStr (label_fng o) = true := by
  cases o with
  | none => rfl
  | some v =>
    simp only [label_fng, wfOptStr]
    split
    · decide
    · split
      · decide
      · split
        · decide
        · split
          · decide
          · decide

theorem mk_fng_reading_wf (v : ℕ) (today source : String) (ht : wfStr today = true)
    (hs : wfStr source = true) : wfFng (mk_fng_reading v today source) = true := by
  simp only [wfFng, mk_fng_reading, wfOptNum, wfOptStr, Bool.and_eq_true]
  exact ⟨⟨⟨wfNum_natCast v, label_fng_wf (some v)⟩, ht⟩, hs⟩

/-- A reading strategy B produces is well-formed. -/
theorem fng_html_reading_wf (page : Except String String) (today : String)
    (ht : wfStr today = true) (r : FngReading)
    (hr : (fng_html_step page today).1 = some r) : wfFng r = true := by
  cases page with
  | error e => exact absurd hr (by simp [fng_html_step])
  | ok html =>
    rw [fng_html_step] at hr
    cases hf : fng_from_html html with
    | none => rw [hf] at hr; exact absurd hr (by simp)
    | some v =>
      rw [hf] at hr
      simp only [Option.some.injEq] at hr
      rw [← hr]
      exact mk_fng_reading_wf v today "CNN (page)" ht (by decide)

/-- A reading the Fear & Greed fetch returns is well-formed. -/
theorem fetch_fng_reading_wf (graph : Except String Json) (page : Except String String)
    (today : String) (ht : wfStr today = true) (r : FngReading)
    (hr : (fetch_fng_best_effort graph page today).1 = some r) : wfFng r = true := by
  cases graph with
  | error e =>
    exact fng_html_reading_wf page today ht r (by simpa [fetch_fng_best_effort] using hr)
  | ok payload =>
    rw [fetch_fng_best_effort] at hr
    cases hf : find_fng_from_graph_json payload with
    | some v =>
      rw [hf] at hr
      simp only [Option.some.injEq] at hr
      rw [← hr]
      exact mk_fng_reading_wf v today "CNN (graphdata)" ht (by decide)
    | none =>
      rw [hf] at hr
      exact fng_html_reading_wf page today ht r (by simpa using hr)


/-! ### The notes the fetchers append stay inside the envelope -/

theorem fng_keep_note_wf (prev : FngReading) : wfStr (fng_keep_note prev) = true := by
  rw [fng_keep_note]
  split
  · decide
  · decide

theorem vix_keep_note_wf (prev : VixReading) : wfStr (vix_keep_note prev) = true := by
  rw [vix_keep_note]
  split
  · decide
  · decide

theorem fng_html_notes_wf (page : Except String String) (today : String)
    (hpe : ∀ e, page = .error e → wfStr e = true) :
    ∀ n ∈ (fng_html_step page today).2, wfStr n = true := by
  intro n hn
  cases page with
  | error e =>
    simp only [fng_html_step, List.mem_singleton] at hn
    subst hn
    exact wfStr_append _ _ (by decide) (hpe e rfl)
  | ok html =>
    rw [fng_html_step] at hn
    cases hf : fng_from_html html with
    | some v =>
      rw [hf] at hn
      simp at hn
    | none =>
      rw [hf] at hn
      simp only [List.mem_singleton] at hn
      subst hn
      decide

theorem fng_notes_wf (graph : Except String Json) (page : Except String String)
    (today : String)
    (hge : ∀ e, graph = .error e → wfStr e = true)
    (hpe : ∀ e, page = .error e → wfStr e = true) :
    ∀ n ∈ (fetch_fng_best_effort graph page today).2, wfStr n = true := by
  intro n hn
  cases graph with
  | error e =>
    simp only [fetch_fng_best_effort] at hn
    rcases List.mem_cons.mp hn with rfl | hn2
    · exact wfStr_append _ _ (by decide) (hge e rfl)
    · exact fng_html_notes_wf page today hpe n hn2
  | ok payload =>
    rw [fetch_fng_best_effort] at hn
    cases hf : find_fng_from_graph_json payload with
    | some v =>
      rw [hf] at hn
      simp at hn
    | none =>
      rw [hf] at hn
      simp only [] at hn
      rcases List.mem_cons.mp hn with rfl | hn2
      · decide
      · exact fng_html_notes_wf page today hpe n hn2

theorem vix_notes_wf (csv : Except String String)
    (hve : ∀ e, csv = .error e → wfStr e = true) :
    ∀ n ∈ (fetch_vix_from_fred csv).2, wfStr n = true := by
  intro n hn
  cases csv with
  | error e =>
    simp only [fetch_vix_from_fred, List.mem_singleton] at hn
    subst hn
    exact wfStr_append _ _ (by decide) (hve e rfl)
  | ok text =>
    rw [show fetch_vix_from_fred (.ok text)
        = (match ((((splitLinesPy text).map stripStr).filter
              (fun l => l != "")).drop 1).reverse.findSome? vix_line_parse with
          | some dv => (some ⟨some (round2 dv.2), some dv.1, some "FRED (VIXCLS)"⟩, [])
          | none => (none, ["VIX: ingen gyldig værdi i FRED CSV."])
          : Option VixReading × List String)
        from rfl] at hn
    cases hf : ((((splitLinesPy text).map stripStr).filter
        (fun l => l != "")).drop 1).reverse.findSome? vix_line_parse with
    | some dv =>
      rw [hf] at hn
      simp at hn
    | none =>
      rw [hf] at hn
      simp only [List.mem_singleton] at hn
      subst hn
      decide


/-! ### Characters of split and stripped parts come from the input -/

/-- A character of a split part is a character of the input and never the
separator. -/
theorem mem_splitOnCh (sep : Char) : ∀ (l p : List Char), p ∈ splitOnCh sep l →
    ∀ c ∈ p, c ∈ l ∧ c ≠ sep := by
  intro l
  induction l with
  | nil =>
    intro p hp c hc
    simp only [splitOnCh, List.mem_singleton] at hp
    subst hp
    simp at hc
  | cons x r ih =>
    intro p hp c hc
    simp only [splitOnCh] at hp
    by_cases hx : x = sep
    · rw [if_pos hx] at hp
      rcases List.mem_cons.mp hp with rfl | hp2
      · simp at hc
      · obtain ⟨hcl, hcs⟩ := ih p hp2 c hc
        exact ⟨List.mem_cons_of_mem x hcl, hcs⟩
    · rw [if_neg hx] at hp
      cases hrest : splitOnCh sep r with
      | nil =>
        rw [hrest] at hp
        simp only [List.mem_singleton] at hp
        subst hp
        rw [List.mem_singleton] at hc
        subst hc
        exact ⟨List.mem_cons_self _ _, hx⟩
      | cons h t =>
        rw [hrest] at hp
        simp only [] at hp
        rcases List.mem_cons.mp hp with rfl | hp2
        · rcases List.mem_cons.mp hc with rfl | hc2
          · exact ⟨List.mem_cons_self _ _, hx⟩
          · obtain ⟨hcl, hcs⟩ := ih h (by rw [hrest]; exact List.mem_cons_self h t) c hc2
            exact ⟨List.mem_cons_of_mem x hcl, hcs⟩
        · obtain ⟨hcl, hcs⟩ := ih p (by rw [hrest]; exact List.mem_cons_of_mem h hp2) c hc
          exact ⟨List.mem_cons_of_mem x hcl, hcs⟩

/-- Stripping only removes characters. -/
theorem stripChars_subset (l : List Char) : ∀ c ∈ stripChars l, c ∈ l := by
  intro c hc
  rw [stripChars, List.mem_reverse] at hc
  have h1 : c ∈ (l.dropWhile isPySpace).reverse := List.dropWhile_subset _ hc
  rw [List.mem_reverse] at h1
  exact List.dropWhile_subset _ h1

/-- A reading the VIX fetch returns is well-formed: the value is a
`round(_, 2)` result, the date is made of printable characters of the CSV
text, the source is fixed. -/
theorem fetch_vix_reading_wf (csv : Except String String)
    (hok : ∀ t, csv = .ok t → wfCsv t = true) (r : VixReading)
    (hr : (fetch_vix_from_fred csv).1 = some r) : wfVix r = true := by
  cases csv with
  | error e => exact absurd hr (by simp [fetch_vix_from_fred])
  | ok text =>
    have hw := hok text rfl
    rw [show fetch_vix_from_fred (.ok text)
        = (match ((((splitLinesPy text).map stripStr).filter
              (fun l => l != "")).drop 1).reverse.findSome? vix_line_parse with
          | some dv => (some ⟨some (round2 dv.2), some dv.1, some "FRED (VIXCLS)"⟩, [])
          | none => (none, ["VIX: ingen gyldig værdi i FRED CSV."])
          : Option VixReading × List String)
        from rfl] at hr
    cases hf : ((((splitLinesPy text).map stripStr).filter
        (fun l => l != "")).drop 1).reverse.findSome? vix_line_parse with
    | none =>
      rw [hf] at hr
      exact absurd hr (by simp)
    | some dv =>
      rw [hf] at hr
      simp only [Option.some.injEq] at hr
      rw [← hr]
      -- the date string of `dv` is a parsed field of a line of the text
      obtain ⟨ln, hlnmem, hlnparse⟩ := List.exists_of_findSome?_eq_some hf
      rw [List.mem_reverse] at hlnmem
      have hlnmem2 := List.mem_of_mem_drop hlnmem
      have hlnmem3 := (List.mem_filter.mp hlnmem2).1
      obtain ⟨ln0, hln0, rfl⟩ := List.mem_map.mp hlnmem3
      obtain ⟨p, hp, rfl⟩ := List.mem_map.mp (by
        rw [splitLinesPy] at hln0
        exact hln0)
      have hasof : wfStr dv.1 = true := by
        rw [vix_line_parse.eq_def] at hlnparse
        cases hsp : splitOnCh ',' (stripStr (String.mk p)).data with
        | nil =>
          rw [hsp] at hlnparse
          exact absurd hlnparse (by simp)
        | cons d0 tl =>
          cases tl with
          | nil =>
            rw [hsp] at hlnparse
            exact absurd hlnparse (by simp)
          | cons v0 tl2 =>
            rw [hsp] at hlnparse
            simp only [] at hlnparse
            cases hsf : safe_float_str (String.mk v0) with
            | none =>
              rw [hsf] at hlnparse
              exact absurd hlnparse (by simp)
            | some qv =>
              rw [hsf] at hlnparse
              simp only [Option.some.injEq] at hlnparse
              rw [← hlnparse]
              rw [wfStr, List.all_eq_true]
              intro c hcmem
              have hc0 : c ∈ d0 := by simpa using hcmem
              have h1 := mem_splitOnCh ',' (stripStr (String.mk p)).data d0
                (by rw [hsp]; exact List.mem_cons_self _ _) c hc0
              have h2 : c ∈ p := stripChars_subset p c h1.1
              have h3 := mem_splitOnCh '\n' text.data p hp c h2
              have h4 := List.all_eq_true.mp hw c h3.1
              simp only [Bool.or_eq_true, decide_eq_true_eq] at h4
              rcases h4 with h4 | h4
              · simpa using h4
              · exact absurd h4 h3.2
      simp only [wfVix, wfOptNum, wfOptStr, Bool.and_eq_true]
      exact ⟨⟨wfNum_round2 dv.2, hasof⟩, by decide⟩


/-! ### The merge keeps the snapshot inside the envelope -/

/-- The merged Fear & Greed field is the prior one or the fetched reading. -/
theorem merge_fng_cases (prior : Market) (fng : Option FngReading × List String)
    (vix : Option VixReading × List String) (ni : String) :
    (merge_results prior fng vix ni).fearGreed = prior.fearGreed
      ∨ fng.1 = some ((merge_results prior fng vix ni).fearGreed) := by
  simp only [merge_results]
  cases hf : fng.1 with
  | none => exact Or.inl rfl
  | some r =>
    simp only []
    by_cases hv : r.value.isSome
    · rw [if_pos hv]
      exact Or.inr rfl
    · rw [if_neg hv]
      exact Or.inl rfl

/-- The merged VIX field is the prior one or the fetched reading. -/
theorem merge_vix_cases (prior : Market) (fng : Option FngReading × List String)
    (vix : Option VixReading × List String) (ni : String) :
    (merge_results prior fng vix ni).vix = prior.vix
      ∨ vix.1 = some ((merge_results prior fng vix ni).vix) := by
  simp only [merge_results]
  cases hf : vix.1 with
  | none => exact Or.inl rfl
  | some r =>
    simp only []
    by_cases hv : r.value.isSome
    · rw [if_pos hv]
      exact Or.inr rfl
    · rw [if_neg hv]
      exact Or.inl rfl

/-- Every merged note is an old note, a fetcher note or a retention note. -/
theorem merge_notes_wf (prior : Market) (fng : Option FngReading × List String)
    (vix : Option VixReading × List String) (ni : String)
    (hpn : prior.notes.all wfStr = true)
    (hfn : ∀ n ∈ fng.2, wfStr n = true)
    (hvn : ∀ n ∈ vix.2, wfStr n = true) :
    (merge_results prior fng vix ni).notes.all wfStr = true := by
  rw [List.all_eq_true] at hpn ⊢
  intro n hn
  simp only [merge_results] at hn
  rw [List.mem_append] at hn
  rcases hn with hn | hn
  · exact hpn n (List.mem_of_mem_drop hn)
  · have hn2 := List.mem_of_mem_take hn
    simp only [List.append_assoc, List.mem_append] at hn2
    rcases hn2 with hn2 | hn2 | hn2 | hn2
    · exact hfn n hn2
    · cases hf : fng.1 with
      | none =>
        rw [hf] at hn2
        simp only [List.mem_singleton] at hn2
        subst hn2
        exact fng_keep_note_wf _
      | some r =>
        rw [hf] at hn2
        simp only [] at hn2
        by_cases hv : r.value.isSome
        · rw [if_pos hv] at hn2
          simp at hn2
        · rw [if_neg hv] at hn2
          simp only [List.mem_singleton] at hn2
          subst hn2
          exact fng_keep_note_wf _
    · exact hvn n hn2
    · cases hf : vix.1 with
      | none =>
        rw [hf] at hn2
        simp only [List.mem_singleton] at hn2
        subst hn2
        exact vix_keep_note_wf _
      | some r =>
        rw [hf] at hn2
        simp only [] at hn2
        by_cases hv : r.value.isSome
        · rw [if_pos hv] at hn2
          simp at hn2
        · rw [if_neg hv] at hn2
          simp only [List.mem_singleton] at hn2
          subst hn2
          exact vix_keep_note_wf _

/-- The merge preserves the envelope. -/
theorem merge_wf (prior : Market) (fng : Option FngReading × List String)
    (vix : Option VixReading × List String) (ni : String)
    (hprior : wfMarket prior = true) (hni : wfStr ni = true)
    (hfr : ∀ r, fng.1 = some r → wfFng r = true)
    (hvr : ∀ r, vix.1 = some r → wfVix r = true)
    (hfn : ∀ n ∈ fng.2, wfStr n = true)
    (hvn : ∀ n ∈ vix.2, wfStr n = true) :
    wfMarket (merge_results prior fng vix ni) = true := by
  simp only [wfMarket, Bool.and_eq_true] at hprior ⊢
  obtain ⟨⟨⟨hpu, hpf⟩, hpv⟩, hpn⟩ := hprior
  refine ⟨⟨⟨?_, ?_⟩, ?_⟩, merge_notes_wf prior fng vix ni hpn hfn hvn⟩
  · rw [merge_updatedAt]
    exact hni
  · rcases merge_fng_cases prior fng vix ni with h | h
    · rw [h]
      exact hpf
    · exact hfr _ h
  · rcases merge_vix_cases prior fng vix ni with h | h
    · rw [h]
      exact hpv
    · exact hvr _ h

/-- The snapshot `main` writes is well-formed whenever the loaded one, the
clock strings and the fetched texts are. -/
theorem wfMarket_main (prior : Market) (graph : Except String Json)
    (page : Except String String) (vixCsv : Except String String) (nowIso today : String)
    (hprior : wfMarket prior = true) (hnow : wfStr nowIso = true)
    (htoday : wfStr today = true)
    (hge : ∀ e, graph = .error e → wfStr e = true)
    (hpe : ∀ e, page = .error e → wfStr e = true)
    (hve : ∀ e, vixCsv = .error e → wfStr e = true)
    (hvt : ∀ t, vixCsv = .ok t → wfCsv t = true) :
    wfMarket (main prior graph page vixCsv nowIso today) = true := by
  rw [main]
  exact merge_wf _ _ _ _ hprior hnow
    (fun r hr => fetch_fng_reading_wf graph page today htoday r hr)
    (fun r hr => fetch_vix_reading_wf vixCsv hvt r hr)
    (fng_notes_wf graph page today hge hpe)
    (vix_notes_wf vixCsv hve)


/-! ### C9 — the write-then-read round trip -/

/-- C9: every snapshot the program writes — the JSON object `main` builds,
serialized by `json.dumps(out, ensure_ascii=False, indent=2)` (line 287) —
parses back under `json.loads` (line 70) to the identical structure, for
every run whose loaded snapshot, clock strings and fetched texts are free of
control characters (as every real feed, date and rendered exception is). -/
theorem C9_round_trip (prior : Market) (graph : Except String Json)
    (page : Except String String) (vixCsv : Except String String) (nowIso today : String)
    (hprior : wfMarket prior = true) (hnow : wfStr nowIso = true)
    (htoday : wfStr today = true)
    (hge : ∀ e, graph = .error e → wfStr e = true)
    (hpe : ∀ e, page = .error e → wfStr e = true)
    (hve : ∀ e, vixCsv = .error e → wfStr e = true)
    (hvt : ∀ t, vixCsv = .ok t → wfCsv t = true) :
    jsonLoads (jsonDumps (market_to_json (main prior graph page vixCsv nowIso today)))
      = some (market_to_json (main prior graph page vixCsv nowIso today)) :=
  jsonLoads_dumps _ (market_to_json_wf _
    (wfMarket_main prior graph page vixCsv nowIso today hprior hnow htoday hge hpe hve hvt))

/-- Witness for C9: a run over a concrete prior snapshot in which the
Fear & Greed fetch raises, the page fetch raises and the VIX CSV parses. -/
theorem C9_witness :
    jsonLoads (jsonDumps (market_to_json (main priorA (Except.error "boom")
        (Except.error "nope") (Except.ok "DATE,VIXCLS\n2024-01-02,12.345")
        "2024-01-02T00:00:00+00:00" "2024-01-02")))
      = some (market_to_json (main priorA (Except.error "boom") (Except.error "nope")
        (Except.ok "DATE,VIXCLS\n2024-01-02,12.345")
        "2024-01-02T00:00:00+00:00" "2024-01-02")) :=
  C9_round_trip priorA (Except.error "boom") (Except.error "nope")
    (Except.ok "DATE,VIXCLS\n2024-01-02,12.345") "2024-01-02T00:00:00+00:00" "2024-01-02"
    (by decide) (by decide) (by decide)
    (fun e he => by injection he with h; subst h; decide)
    (fun e he => by injection he with h; subst h; decide)
    (fun e he => Except.noConfusion he)
    (fun t ht => by injection ht with h; subst h; decide)

/-! ### C10 — invalid stored contents load as the default skeleton -/

/-- C10: when the output file exists but its contents do not parse as JSON,
`load_existing_market` (lines 67-80) swallows the error and returns the
default skeleton — all values `null`, empty notes — exactly as when the file
is absent. -/
theorem C10_invalid_default (text : String) (h : jsonLoads text = none) :
    load_existing_market (MarketFile.stored text) = default_market_json
      ∧ load_existing_market MarketFile.absent = default_market_json := by
  constructor
  · rw [load_existing_market, h]
  · rfl

/-- Witness for C10 at a concrete non-JSON text. -/
theorem C10_witness :
    jsonLoads "oops[" = none
    ∧ (load_existing_market (MarketFile.stored "oops[") = default_market_json
      ∧ load_existing_market MarketFile.absent = default_market_json) :=
  ⟨rfl, C10_invalid_default "oops[" rfl⟩

end Aktie
